import Mathlib

/-!
# PosePhase — verification of the per-frame analytics pipeline

Shallow embedding of the PosePhase repository's core pipeline:
feature extraction, signal smoothing, exercise classification,
phase FSMs, repetition counting, form evaluation and the session
summary bookkeeping of `SessionRunner.run`.

Python floats are modelled as exact rationals (`ℚ`); Python dicts as
insertion-ordered association lists; raising code as `Except`/`Option`.
-/

namespace PosePhase

/-! ## Phases (src/core/fsm/states.py) -/

/-- The `PhaseName` enum from `src/core/fsm/states.py`. -/
inductive PhaseName : Type where
  | START | DESCENDING | BOTTOM | ASCENDING | TOP | RESET
deriving DecidableEq, Repr

/-! ## Feature dictionaries

A `FeatureVector` is a Python dict mapping feature name to float
(`src/core/feature_extractor.py` builds it in insertion order).
We model it as an insertion-ordered association list. -/

abbrev Features := List (String × ℚ)

/-- Python `f.get(k)` / `k in f`: lookup of the first binding of `k`. -/
def fLookup (f : Features) (k : String) : Option ℚ :=
  List.lookup k f

/-- Python `f.get(k, d)`: lookup with default. -/
def fGetD (f : Features) (k : String) (d : ℚ) : ℚ :=
  (fLookup f k).getD d

/-- Python `f[k]` as read by the FSM transition predicates.  Every key the
predicates read is produced by `FeatureExtractor.compute_all` on every frame,
so the `.getD 0` default branch is unreachable in the pipeline; it stands in
for the `KeyError` that direct indexing would raise. -/
def fIdx (f : Features) (k : String) : ℚ :=
  (fLookup f k).getD 0

/-! ## Exercise classifier (src/core/exercise_classifier.py) -/

/-- `ExerciseClassifier._ramp`: normalizes `x` into `[0,1]` with a linear
ramp; invalid bounds (`hi ≤ lo`) produce zero contribution. -/
def ramp (x lo hi : ℚ) : ℚ :=
  if hi ≤ lo then 0
  else max 0 (min 1 ((x - lo) / (hi - lo)))

/-! ## Rep counter (src/core/rep_counter.py) -/

/-- State of `RepCounter`: total completed reps and previously observed
phase (`None` before the first update). -/
structure RepCounter where
  rep_count : ℕ
  prev : Option PhaseName
deriving DecidableEq, Repr

/-- `RepCounter.__init__` / `RepCounter.reset`. -/
def RepCounter.init : RepCounter := ⟨0, none⟩

/-- `RepCounter.update`: on the first call only record the phase; afterwards
increment exactly on ASCENDING → {START, TOP}. -/
def RepCounter.update (rc : RepCounter) (s : PhaseName) : RepCounter :=
  match rc.prev with
  | none => { rc with prev := some s }
  | some p =>
      if p = PhaseName.ASCENDING ∧ (s = PhaseName.START ∨ s = PhaseName.TOP) then
        { rep_count := rc.rep_count + 1, prev := some s }
      else
        { rep_count := rc.rep_count, prev := some s }

/-- Feeding a list of phases into a `RepCounter`. -/
def RepCounter.feed (rc : RepCounter) (l : List PhaseName) : RepCounter :=
  l.foldl RepCounter.update rc

/-! ## Finite state machine (src/core/fsm/fsm_base.py)

The generic engine is parametric in the feature dictionary type `F` and
the context dictionary type `C`, exactly as the Python `Condition =
Callable[[Dict[str, float], Dict[str, Any]], bool]`.  None of the
registered transition predicates of the three exercise variants reads or
writes the context, so the variants instantiate `C := Unit`. -/

/-- A transition rule: target state plus predicate (`Transition` dataclass). -/
structure Transition (F C : Type) where
  to_state : PhaseName
  condition : F → C → Bool

/-- `FiniteStateMachine`: current phase, context, and the rules registered
per source state (`self.transitions` dict; `add_transition` appends, so the
list order is registration order). -/
structure FiniteStateMachine (F C : Type) where
  current : PhaseName
  ctx : C
  transitions : PhaseName → List (Transition F C)

/-- The `for t in …: if t.condition(features, ctx): …; break` loop of
`FiniteStateMachine.update`: the target of the first rule whose condition
holds, or `none` when no rule fires. -/
def scanRules {F C : Type} (f : F) (c : C) : List (Transition F C) → Option PhaseName
  | [] => none
  | t :: ts => if t.condition f c then some t.to_state else scanRules f c ts

/-- `FiniteStateMachine.update`: apply the first matching rule for the
current state, leaving the state unchanged when nothing matches. -/
def FiniteStateMachine.update {F C : Type} (m : FiniteStateMachine F C) (f : F) :
    FiniteStateMachine F C :=
  match scanRules f m.ctx (m.transitions m.current) with
  | some s => { m with current := s }
  | none => m

/-! ## The three FSM variants (src/core/fsm/{squat,pushup,lunge}_fsm.py) -/

/-- Squat thresholds (`self.th` of `SquatFSM`). -/
structure SquatTh where
  stand_knee : ℚ
  bottom_knee : ℚ
  stand_hip : ℚ
  vel_eps : ℚ

/-- `SquatFSM._build`: the registered rules, in registration order. -/
def squatTransitions (th : SquatTh) : PhaseName → List (Transition Features Unit)
  | .START =>
      [⟨.DESCENDING, fun f _ =>
          decide (fIdx f "knee_angle_avg" < th.stand_knee ∧
                  fIdx f "knee_vel_avg" < -th.vel_eps)⟩]
  | .DESCENDING =>
      [⟨.BOTTOM, fun f _ =>
          decide (fIdx f "knee_angle_avg" ≤ th.bottom_knee ∧
                  |fIdx f "knee_vel_avg"| ≤ th.vel_eps)⟩,
       ⟨.ASCENDING, fun f _ =>
          decide (th.vel_eps < fIdx f "knee_vel_avg" ∧
                  th.bottom_knee < fIdx f "knee_angle_avg")⟩]
  | .BOTTOM =>
      [⟨.ASCENDING, fun f _ => decide (th.vel_eps < fIdx f "knee_vel_avg")⟩]
  | .ASCENDING =>
      [⟨.START, fun f _ =>
          decide (th.stand_knee ≤ fIdx f "knee_angle_avg" ∧
                  th.stand_hip ≤ fIdx f "hip_angle_avg")⟩]
  | _ => []

/-- `SquatFSM.__init__`: starts in START. -/
def SquatFSM.init (th : SquatTh) : FiniteStateMachine Features Unit :=
  ⟨.START, (), squatTransitions th⟩

/-- Pushup thresholds (`self.th` of `PushupFSM`). -/
structure PushupTh where
  top_elbow : ℚ
  bottom_elbow : ℚ
  plank_line : ℚ
  vel_eps : ℚ

/-- `PushupFSM._build`: the registered rules, in registration order. -/
def pushupTransitions (th : PushupTh) : PhaseName → List (Transition Features Unit)
  | .TOP =>
      [⟨.DESCENDING, fun f _ =>
          decide (fIdx f "elbow_angle_avg" < th.top_elbow ∧
                  fIdx f "elbow_vel_avg" < -th.vel_eps)⟩]
  | .DESCENDING =>
      [⟨.BOTTOM, fun f _ =>
          decide (fIdx f "elbow_angle_avg" ≤ th.bottom_elbow ∧
                  |fIdx f "elbow_vel_avg"| ≤ th.vel_eps)⟩,
       ⟨.ASCENDING, fun f _ =>
          decide (th.vel_eps < fIdx f "elbow_vel_avg" ∧
                  th.bottom_elbow < fIdx f "elbow_angle_avg")⟩]
  | .BOTTOM =>
      [⟨.ASCENDING, fun f _ => decide (th.vel_eps < fIdx f "elbow_vel_avg")⟩]
  | .ASCENDING =>
      [⟨.TOP, fun f _ =>
          decide (th.top_elbow ≤ fIdx f "elbow_angle_avg" ∧
                  th.plank_line ≤ fIdx f "shoulder_hip_ankle_angle_avg")⟩]
  | _ => []

/-- `PushupFSM.__init__`: starts in TOP. -/
def PushupFSM.init (th : PushupTh) : FiniteStateMachine Features Unit :=
  ⟨.TOP, (), pushupTransitions th⟩

/-- Lunge thresholds (`self.th` of `LungeFSM`). -/
structure LungeTh where
  stand_front_knee : ℚ
  bottom_front_knee : ℚ
  bottom_back_knee : ℚ
  stand_back_knee : ℚ
  vel_eps : ℚ

/-- `LungeFSM._build`: the registered rules, in registration order. -/
def lungeTransitions (th : LungeTh) : PhaseName → List (Transition Features Unit)
  | .START =>
      [⟨.DESCENDING, fun f _ =>
          decide (fIdx f "front_knee_angle" < th.stand_front_knee ∧
                  fIdx f "front_knee_vel" < -th.vel_eps)⟩]
  | .DESCENDING =>
      [⟨.BOTTOM, fun f _ =>
          decide (fIdx f "front_knee_angle" ≤ th.bottom_front_knee ∧
                  fIdx f "back_knee_angle" ≤ th.bottom_back_knee ∧
                  |fIdx f "front_knee_vel"| ≤ th.vel_eps)⟩,
       ⟨.ASCENDING, fun f _ =>
          decide (th.vel_eps < fIdx f "front_knee_vel" ∧
                  (th.bottom_front_knee < fIdx f "front_knee_angle" ∨
                   th.bottom_back_knee < fIdx f "back_knee_angle"))⟩]
  | .BOTTOM =>
      [⟨.ASCENDING, fun f _ => decide (th.vel_eps < fIdx f "front_knee_vel")⟩]
  | .ASCENDING =>
      [⟨.START, fun f _ =>
          decide (th.stand_front_knee ≤ fIdx f "front_knee_angle" ∧
                  th.stand_back_knee ≤ fIdx f "back_knee_angle")⟩]
  | _ => []

/-- `LungeFSM.__init__`: starts in START. -/
def LungeFSM.init (th : LungeTh) : FiniteStateMachine Features Unit :=
  ⟨.START, (), lungeTransitions th⟩

/-! ## Signal smoothing (src/utils/smoothing.py) -/

/-- Python `str.endswith(suf)`.  (Lean's own `String.endsWith` is avoided
because it does not reduce well in the kernel; suffix testing on the
character list is extensionally the same.) -/
def endsWithQ (s suf : String) : Bool :=
  List.isSuffixOf suf.data s.data

/-- A per-feature filter: `EMAFilter` (smoothing factor plus optional state,
`None` before the first observation) or `Kalman1D` (q, r, x, p, k). -/
inductive Filter : Type where
  | ema (alpha : ℚ) (state : Option ℚ)
  | kal (q r x p k : ℚ)
deriving DecidableEq, Repr

/-- `EMAFilter.update` / `Kalman1D.update`: the mutated filter and the value
it returns.  EMA seeds its state with the first observation; Kalman runs
predict/gain/update/covariance from its current `x`, `p`. -/
def Filter.update : Filter → ℚ → Filter × ℚ
  | .ema alpha none, x => (.ema alpha (some x), x)
  | .ema alpha (some s), x =>
      let s1 := alpha * x + (1 - alpha) * s
      (.ema alpha (some s1), s1)
  | .kal q r x p _, z =>
      let p1 := p + q
      let k1 := p1 / (p1 + r)
      let x1 := x + k1 * (z - x)
      let p2 := (1 - k1) * p1
      (.kal q r x1 p2 k1, x1)

/-- `SignalSmoother`: method ("ema" or "kalman"), filter parameters, and one
filter per feature name (a dict, modelled as an insertion-ordered
association list). -/
structure SignalSmoother where
  method : String
  alpha : ℚ
  q : ℚ
  r : ℚ
  filters : List (String × Filter)
deriving DecidableEq, Repr

/-- Python dict assignment `d[k] = v`: overwrite the binding in place when
the key exists, otherwise append a new binding. -/
def dictInsert {α : Type} : List (String × α) → String → α → List (String × α)
  | [], k, v => [(k, v)]
  | (k0, v0) :: rest, k, v =>
      if k0 = k then (k, v) :: rest else (k0, v0) :: dictInsert rest k v

/-- The filter constructed on a key's first sight in
`SignalSmoother.update` (`EMAFilter(self.alpha)` or
`Kalman1D(self.q, self.r)` with the dataclass defaults `x=0, p=1, k=0`). -/
def SignalSmoother.mkFilter (s : SignalSmoother) : Filter :=
  if s.method = "ema" then .ema s.alpha none else .kal s.q s.r 0 1 0

/-- One iteration of the `for k, v in signals.items()` loop of
`SignalSmoother.update`: velocity-like keys pass through unfiltered;
otherwise the key's filter (created on first use) is advanced. -/
def smootherStep (s : SignalSmoother) (fm : List (String × Filter))
    (k : String) (v : ℚ) : List (String × Filter) × (String × ℚ) :=
  if endsWithQ k "_vel" ∨ endsWithQ k "_vel_avg" then
    (fm, (k, v))
  else
    let filt := match List.lookup k fm with
      | none => s.mkFilter
      | some filt => filt
    let fu := filt.update v
    (dictInsert fm k fu.1, (k, fu.2))

/-- The whole loop of `SignalSmoother.update`, threading the filter dict and
collecting the output dict in input order. -/
def smootherGo (s : SignalSmoother) :
    List (String × Filter) → Features → List (String × Filter) × Features
  | fm, [] => (fm, [])
  | fm, kv :: rest =>
      let st := smootherStep s fm kv.1 kv.2
      let r1 := smootherGo s st.1 rest
      (r1.1, st.2 :: r1.2)

/-- `SignalSmoother.update`: smooth all incoming signals, returning the
updated smoother and the output dict. -/
def SignalSmoother.update (s : SignalSmoother) (signals : Features) :
    SignalSmoother × Features :=
  let r := smootherGo s s.filters signals
  ({ s with filters := r.1 }, r.2)

/-! ## Exercise classifier (src/core/exercise_classifier.py), continued -/

/-- `ExercisePrediction` dataclass: label, confidence, diagnostics. -/
structure ExercisePrediction where
  label : String
  confidence : ℚ
  debug : List (String × ℚ)
deriving DecidableEq, Repr

/-- Classifier threshold configuration (`self.th`); the fixed keys the
classifier reads, validated at construction per the config contract. -/
structure ClassifierTh where
  pushup_trunk_min : ℚ
  pushup_wrist_below : ℚ
  pushup_top_elbow : ℚ
  pushup_elbow_flex_range : ℚ
  squat_trunk_max : ℚ
  squat_trunk_range : ℚ
  squat_stand_knee : ℚ
  squat_knee_flex_range : ℚ
  squat_sym_knee_max : ℚ
  lunge_asym_min : ℚ
  lunge_asym_max : ℚ
deriving DecidableEq, Repr

/-- The pushup composite score computed inside `predict` (mean of three
component ramps; defaults as in the source's `f.get` calls). -/
def pushupScore (th : ClassifierTh) (f : Features) : ℚ :=
  let trunk := fGetD f "shoulder_hip_ankle_angle_avg" 180
  let elbow_avg := fGetD f "elbow_angle_avg" 180
  let shoulder_y := fGetD f "shoulder_y" (2/5)
  let wrist_y := fGetD f "wrist_y" (3/5)
  (ramp trunk th.pushup_trunk_min 180 +
   ramp (wrist_y - shoulder_y) th.pushup_wrist_below (3/5) +
   ramp (th.pushup_top_elbow - elbow_avg) 0 th.pushup_elbow_flex_range) / 3

/-- The squat composite score computed inside `predict`. -/
def squatScore (th : ClassifierTh) (f : Features) : ℚ :=
  let trunk := fGetD f "shoulder_hip_ankle_angle_avg" 180
  let knee_avg := fGetD f "knee_angle_avg" 180
  let sym_knee := fGetD f "sym_knee" 0
  (ramp (th.squat_trunk_max - trunk) 0 th.squat_trunk_range +
   ramp (th.squat_stand_knee - knee_avg) 0 th.squat_knee_flex_range +
   ramp (th.squat_sym_knee_max - sym_knee) 0 th.squat_sym_knee_max) / 3

/-- The lunge composite score computed inside `predict`. -/
def lungeScore (th : ClassifierTh) (f : Features) : ℚ :=
  ramp (fGetD f "sym_knee" 0) th.lunge_asym_min th.lunge_asym_max

/-- Python `max(scores, key=scores.get)` over the insertion-ordered score
dict: scan keeps the current best entry and replaces it only on a strictly
greater value, so on exact ties the earliest key in insertion order wins. -/
def pyMaxEntry (x : String × ℚ) (xs : List (String × ℚ)) : String × ℚ :=
  xs.foldl (fun best p => if best.2 < p.2 then p else best) x

/-- `ExerciseClassifier.predict`: composite scores, argmax label with the
winning score as confidence, and the diagnostic dict.  (`conf =
scores[label]` in the source equals the winning entry's score because the
three dict keys are distinct.) -/
def predict (th : ClassifierTh) (f : Features) : ExercisePrediction :=
  let trunk := fGetD f "shoulder_hip_ankle_angle_avg" 180
  let knee_avg := fGetD f "knee_angle_avg" 180
  let elbow_avg := fGetD f "elbow_angle_avg" 180
  let sym_knee := fGetD f "sym_knee" 0
  let pushup_score := pushupScore th f
  let squat_score := squatScore th f
  let lunge_score := lungeScore th f
  let best := pyMaxEntry ("pushup", pushup_score)
    [("squat", squat_score), ("lunge", lunge_score)]
  { label := best.1
    confidence := best.2
    debug := [("pushup_score", pushup_score), ("squat_score", squat_score),
              ("lunge_score", lunge_score), ("trunk", trunk),
              ("knee_avg", knee_avg), ("elbow_avg", elbow_avg),
              ("sym_knee", sym_knee)] }

/-! ## Session summary bookkeeping (src/core/session_runner.py)

The slice of `SessionRunner` state that the warnings-breakdown invariant
is about: the active exercise label, `summary["warnings_count"]`,
`self._warning_counter` and `summary["warnings_breakdown"]`.  Score sums,
loggers, phase counts, example collection and UI are independent of this
bookkeeping and are not modelled. -/

structure SummaryState where
  current_ex : Option String
  warnings_count : ℕ
  warning_counter : List (String × ℕ)
  warnings_breakdown : List (String × ℕ)
deriving DecidableEq, Repr

/-- `Counter[w] += 1`. -/
def counterInc : List (String × ℕ) → String → List (String × ℕ)
  | [], w => [(w, 1)]
  | (k, n) :: rest, w =>
      if k = w then (k, n + 1) :: rest else (k, n) :: counterInc rest w

/-- State at `SessionRunner.__init__`: no exercise yet, empty counters. -/
def initSummary : SummaryState := ⟨none, 0, [], []⟩

/-- `_swap_exercise` restricted to this bookkeeping: set the label and let
`_reset_trackers` clear `_warning_counter`.  Neither
`summary["warnings_count"]` nor `summary["warnings_breakdown"]` is reset. -/
def swapExercise (s : SummaryState) (label : String) : SummaryState :=
  { s with current_ex := some label, warning_counter := [] }

/-- The warnings bookkeeping that `SessionRunner.run` performs for one
processed frame: swap on label change, add this frame's warnings to the
counter, add their number to `summary["warnings_count"]` (guarded by
`if fb["warnings"]:`), and reassign `warnings_breakdown` from the counter. -/
def processFrame (s : SummaryState) (label : String) (warnings : List String) :
    SummaryState :=
  let s1 := if s.current_ex ≠ some label then swapExercise s label else s
  let counter := warnings.foldl counterInc s1.warning_counter
  let wc := if warnings.isEmpty then s1.warnings_count
            else s1.warnings_count + warnings.length
  { s1 with warning_counter := counter, warnings_count := wc,
            warnings_breakdown := counter }

/-- A whole session's worth of processed frames, each given as (predicted
label, warning list of that frame). -/
def runSummary (s : SummaryState) (frames : List (String × List String)) :
    SummaryState :=
  frames.foldl (fun st fr => processFrame st fr.1 fr.2) s

/-- Sum of all values of a warning→count mapping. -/
def sumCounts (c : List (String × ℕ)) : ℕ :=
  (c.map Prod.snd).sum

/-! ## Form evaluator (src/core/form_evaluator.py) -/

/-- `FormEvaluator` instance state: exercise label, threshold dict
(`self.th`), the previous frame's phase, the per-rep minima trackers, and
the lunge one-rep-scored flag. -/
structure FormEvaluator where
  exercise : String
  th : List (String × ℚ)
  prev_phase : Option PhaseName
  min_knee : Option ℚ
  min_elbow : Option ℚ
  min_front_knee : Option ℚ
  min_back_knee : Option ℚ
  lunge_rep_scored : Bool
deriving DecidableEq, Repr

/-- `FormEvaluator.__init__`. -/
def FormEvaluator.make (exercise : String) (th : List (String × ℚ)) :
    FormEvaluator :=
  ⟨exercise, th, none, none, none, none, none, false⟩

/-- `self.th[k]`.  The config contract guarantees every key the active
exercise reads (missing keys are InvalidConfigError, fatal at start), so
the default branch is unreachable in the pipeline. -/
def thIdx (th : List (String × ℚ)) (k : String) : ℚ :=
  (List.lookup k th).getD 0

/-- `x if m is None else min(m, x)`: the minima update step. -/
def optMin (old : Option ℚ) (v : ℚ) : Option ℚ :=
  some (match old with
        | none => v
        | some m => min m v)

/-- `m is not None and m > t`: the depth-check guard shape. -/
def depthViolated (mo : Option ℚ) (t : ℚ) : Bool :=
  match mo with
  | none => false
  | some m => decide (t < m)

/-- `FormEvaluator._is_turnaround_to_ascending`. -/
def isTurnaroundToAscending (e : FormEvaluator) (phase : PhaseName) : Prop :=
  phase = PhaseName.ASCENDING ∧
    (e.prev_phase = some PhaseName.DESCENDING ∨
     e.prev_phase = some PhaseName.BOTTOM)

instance (e : FormEvaluator) (phase : PhaseName) :
    Decidable (isTurnaroundToAscending e phase) := by
  unfold isTurnaroundToAscending
  infer_instance

/-- `FormEvaluator._is_rep_complete_to_top`. -/
def isRepCompleteToTop (e : FormEvaluator) (phase : PhaseName) : Prop :=
  (phase = PhaseName.START ∨ phase = PhaseName.TOP) ∧
    e.prev_phase = some PhaseName.ASCENDING

instance (e : FormEvaluator) (phase : PhaseName) :
    Decidable (isRepCompleteToTop e phase) := by
  unfold isRepCompleteToTop
  infer_instance

/-- `FormEvaluator._update_minima`.  The source's early `return` in the
gated lunge branch is equivalent to falling through unchanged, because the
remaining branches only act on DESCENDING/BOTTOM/ASCENDING phases, which
are disjoint from the top-phase set guarding that branch. -/
def updateMinima (e : FormEvaluator) (phase : PhaseName) (f : Features) :
    FormEvaluator :=
  if phase = PhaseName.START ∨ phase = PhaseName.TOP ∨ phase = PhaseName.RESET then
    if e.exercise = "lunge" ∧ e.prev_phase = some PhaseName.ASCENDING ∧
        e.lunge_rep_scored = false then
      e
    else
      { e with min_knee := none, min_elbow := none, min_front_knee := none,
               min_back_knee := none, lunge_rep_scored := false }
  else
    let e1 :=
      if phase = PhaseName.DESCENDING then
        let ek :=
          match fLookup f "knee_angle_avg" with
          | some v => { e with min_knee := optMin e.min_knee v }
          | none => e
        match fLookup f "elbow_angle_avg" with
        | some v => { ek with min_elbow := optMin ek.min_elbow v }
        | none => ek
      else e
    if e1.exercise = "lunge" ∧
        (phase = PhaseName.DESCENDING ∨ phase = PhaseName.BOTTOM ∨
         phase = PhaseName.ASCENDING) then
      let e2 :=
        match fLookup f "front_knee_angle" with
        | some v => { e1 with min_front_knee := optMin e1.min_front_knee v }
        | none => e1
      match fLookup f "back_knee_angle" with
      | some v => { e2 with min_back_knee := optMin e2.min_back_knee v }
      | none => e2
    else e1

/-- Per-frame result of the evaluator: score in `[0,1]` and warning list. -/
structure PhaseScore where
  score : ℚ
  warnings : List String
deriving DecidableEq, Repr

/-- `FormEvaluator._squat`: knee-symmetry check every frame, depth check at
the turnaround into ASCENDING against the tracked knee minimum. -/
def squatEval (e : FormEvaluator) (phase : PhaseName) (f : Features) :
    PhaseScore :=
  let ws1 : List String × ℚ :=
    if thIdx e.th "sym_knee_max" < fGetD f "sym_knee" 0 then
      (["Knee alignment uneven"], 1 - 3/10)
    else ([], 1)
  let ws2 : List String × ℚ :=
    if isTurnaroundToAscending e phase ∧
        depthViolated e.min_knee (thIdx e.th "bottom_knee_max") = true then
      (ws1.1 ++ ["Insufficient squat depth"], ws1.2 - 3/10)
    else ws1
  ⟨max ws2.2 0, ws2.1⟩

/-- `FormEvaluator._pushup`: plank-line check every frame, depth check at
the turnaround into ASCENDING against the tracked elbow minimum. -/
def pushupEval (e : FormEvaluator) (phase : PhaseName) (f : Features) :
    PhaseScore :=
  let ws1 : List String × ℚ :=
    if fGetD f "shoulder_hip_ankle_angle_avg" 180 < thIdx e.th "plank_min" then
      (["Body line not straight"], 1 - 3/10)
    else ([], 1)
  let ws2 : List String × ℚ :=
    if isTurnaroundToAscending e phase ∧
        depthViolated e.min_elbow (thIdx e.th "bottom_elbow_max") = true then
      (ws1.1 ++ ["Push-up depth insufficient"], ws1.2 - 3/10)
    else ws1
  ⟨max ws2.2 0, ws2.1⟩

/-- `FormEvaluator._lunge`: once-per-rep depth checks on the return to a
top phase after ASCENDING; sets the one-rep-scored flag. -/
def lungeEval (e : FormEvaluator) (phase : PhaseName) :
    FormEvaluator × PhaseScore :=
  if e.lunge_rep_scored = false ∧ isRepCompleteToTop e phase then
    let ws1 : List String × ℚ :=
      if depthViolated e.min_front_knee (thIdx e.th "bottom_front_knee_max") = true then
        (["Front knee not bending enough"], 1 - 3/10)
      else ([], 1)
    let ws2 : List String × ℚ :=
      if depthViolated e.min_back_knee (thIdx e.th "bottom_back_knee_max") = true then
        (ws1.1 ++ ["Back knee not lowering enough"], ws1.2 - 3/10)
      else ws1
    ({ e with lunge_rep_scored := true }, ⟨max ws2.2 0, ws2.1⟩)
  else
    (e, ⟨max 1 0, []⟩)

/-- `FormEvaluator.scorePhase`: update the minima trackers first, route to
the exercise-specific scorer, and record the phase as previous only at the
end.  Only the lunge scorer mutates evaluator state. -/
def scorePhase (e : FormEvaluator) (phase : PhaseName) (f : Features) :
    FormEvaluator × PhaseScore :=
  let e1 := updateMinima e phase f
  let r :=
    if e1.exercise = "squat" then (e1, squatEval e1 phase f)
    else if e1.exercise = "pushup" then (e1, pushupEval e1 phase f)
    else if e1.exercise = "lunge" then lungeEval e1 phase
    else (e1, ⟨1, []⟩)
  ({ r.1 with prev_phase := some phase }, r.2)

/-- Feeding a list of (phase, features) frames through the evaluator. -/
def evalRun (e : FormEvaluator) :
    List (PhaseName × Features) → FormEvaluator × List PhaseScore
  | [] => (e, [])
  | pf :: rest =>
      let r := scorePhase e pf.1 pf.2
      let r2 := evalRun r.1 rest
      (r2.1, r.2 :: r2.2)

/-- Whether a frame's result carries the squat shallow-depth warning. -/
def hasDepthWarning (o : PhaseScore) : Bool :=
  o.warnings.contains "Insufficient squat depth"

/-! ## Feature extraction and the session loop's error handling
(src/core/feature_extractor.py, src/utils/geometry.py,
src/core/session_runner.py)

`angle_3pt` involves `arccos` and square roots, which have no computable
rational form; every claim here concerns only key lookup and control flow,
so the development is parametric in the angle function.  `avg` is exact. -/

abbrev Point := ℚ × ℚ

/-- A landmark mapping as returned by `PoseEstimator.detect`. -/
abbrev Landmarks := List (String × Point)

/-- `avg` from src/utils/geometry.py. -/
def avg (x y : ℚ) : ℚ :=
  (x + y) / 2

/-- Python `lm[k]`: raises `KeyError(k)` when the key is missing, modelled
as `Except` carrying the missing key's name. -/
def lmGet (lm : Landmarks) (k : String) : Except String Point :=
  match List.lookup k lm with
  | some p => .ok p
  | none => .error k

/-- `FeatureExtractor` state: the history bound and the rolling histories
backing the velocity estimates. -/
structure ExtractorState where
  history : ℕ
  knee_hist : List ℚ
  elbow_hist : List ℚ
  front_knee_hist : List ℚ
deriving DecidableEq, Repr

/-- `FeatureExtractor.__init__` with the default `history=5`. -/
def ExtractorState.init : ExtractorState := ⟨5, [], [], []⟩

/-- `FeatureExtractor._velocity`: append the current value, trim the
history to its bound by popping the front, and return current − previous
(`0.0` with fewer than 2 samples).  `hist[-2]` is in range whenever it is
read, so the `getD` default is unreachable. -/
def velocity (n : ℕ) (hist : List ℚ) (current : ℚ) : List ℚ × ℚ :=
  let h1 := hist ++ [current]
  let h2 := if n < h1.length then h1.drop 1 else h1
  if h2.length < 2 then (h2, 0)
  else (h2, current - h2.getD (h2.length - 2) 0)

/-- `FeatureExtractor.compute_all`: every landmark is fetched by direct
indexing (`lm[...]`), in the source's first-use order, so a missing joint
raises at its first use; on success the full feature dict is built in the
source's insertion order and the updated histories are kept. -/
def compute_all (angle3pt : Point → Point → Point → ℚ) (st : ExtractorState)
    (lm : Landmarks) : Except String (ExtractorState × Features) := do
  let left_hip ← lmGet lm "left_hip"
  let left_knee ← lmGet lm "left_knee"
  let left_ankle ← lmGet lm "left_ankle"
  let right_hip ← lmGet lm "right_hip"
  let right_knee ← lmGet lm "right_knee"
  let right_ankle ← lmGet lm "right_ankle"
  let knee_l := angle3pt left_hip left_knee left_ankle
  let knee_r := angle3pt right_hip right_knee right_ankle
  let left_shoulder ← lmGet lm "left_shoulder"
  let right_shoulder ← lmGet lm "right_shoulder"
  let hip_l := angle3pt left_shoulder left_hip left_knee
  let hip_r := angle3pt right_shoulder right_hip right_knee
  let left_elbow ← lmGet lm "left_elbow"
  let left_wrist ← lmGet lm "left_wrist"
  let right_elbow ← lmGet lm "right_elbow"
  let right_wrist ← lmGet lm "right_wrist"
  let elbow_l := angle3pt left_shoulder left_elbow left_wrist
  let elbow_r := angle3pt right_shoulder right_elbow right_wrist
  let line_l := angle3pt left_shoulder left_hip left_ankle
  let line_r := angle3pt right_shoulder right_hip right_ankle
  let knee_avg := avg knee_l knee_r
  let elbow_avg := avg elbow_l elbow_r
  let kv := velocity st.history st.knee_hist knee_avg
  let ev := velocity st.history st.elbow_hist elbow_avg
  let fk := if knee_l < knee_r then (knee_l, knee_r) else (knee_r, knee_l)
  let fv := velocity st.history st.front_knee_hist fk.1
  let st1 : ExtractorState :=
    { st with knee_hist := kv.1, elbow_hist := ev.1, front_knee_hist := fv.1 }
  let f : Features :=
    [("knee_angle_l", knee_l), ("knee_angle_r", knee_r),
     ("knee_angle_avg", knee_avg),
     ("hip_angle_l", hip_l), ("hip_angle_r", hip_r),
     ("hip_angle_avg", avg hip_l hip_r),
     ("sym_knee", |knee_l - knee_r|),
     ("elbow_angle_l", elbow_l), ("elbow_angle_r", elbow_r),
     ("elbow_angle_avg", elbow_avg),
     ("sym_elbow", |elbow_l - elbow_r|),
     ("shoulder_hip_ankle_angle_avg", avg line_l line_r),
     ("knee_vel_avg", kv.2), ("elbow_vel_avg", ev.2),
     ("front_knee_angle", fk.1), ("back_knee_angle", fk.2),
     ("front_knee_vel", fv.2),
     ("hip_y", avg left_hip.2 right_hip.2),
     ("shoulder_y", avg left_shoulder.2 right_shoulder.2),
     ("wrist_y", avg left_wrist.2 right_wrist.2)]
  return (st1, f)

/-- The landmark names `compute_all` indexes, in first-use order. -/
def requiredLandmarks : List String :=
  ["left_hip", "left_knee", "left_ankle", "right_hip", "right_knee",
   "right_ankle", "left_shoulder", "right_shoulder", "left_elbow",
   "left_wrist", "right_elbow", "right_wrist"]

/-- The error-handling-relevant control flow of the `while True` loop of
`SessionRunner.run`: each frame yields either no detection (`none` — the
whole analytics block is skipped for that frame only and the loop
continues) or a landmark mapping, on which `compute_all` runs with no
surrounding handler, so its KeyError propagates out of the loop.  The
counter models `frame_idx`: it advances exactly for fully processed frames
(those for which all downstream updates run). -/
def runFrames (angle3pt : Point → Point → Point → ℚ) :
    ExtractorState → ℕ → List (Option Landmarks) →
      Except String (ExtractorState × ℕ)
  | st, idx, [] => .ok (st, idx)
  | st, idx, none :: rest => runFrames angle3pt st idx rest
  | st, idx, some lm :: rest =>
      match compute_all angle3pt st lm with
      | .error k => .error k
      | .ok (st1, _) => runFrames angle3pt st1 (idx + 1) rest

/-- A landmark mapping with every required joint except `left_hip`. -/
def lmMissingLeftHip : Landmarks :=
  [("left_knee", (0, 0)), ("left_ankle", (0, 0)), ("right_hip", (0, 0)),
   ("right_knee", (0, 0)), ("right_ankle", (0, 0)), ("left_shoulder", (0, 0)),
   ("right_shoulder", (0, 0)), ("left_elbow", (0, 0)), ("left_wrist", (0, 0)),
   ("right_elbow", (0, 0)), ("right_wrist", (0, 0))]

/-- A complete landmark mapping. -/
def lmComplete : Landmarks :=
  ("left_hip", (0, 1)) :: lmMissingLeftHip

end PosePhase

namespace PosePhase

/-! ## Theorems -/

/-- **C9.** The classifier's ramp function returns 0 when `x ≤ lo`; when the
bounds are proper (`lo < hi`) it returns 1 when `x ≥ hi` and exactly 1/2 at
the midpoint; its value always lies in `[0,1]`; and for degenerate bounds
(`hi ≤ lo`) it returns 0 for every `x`, with no error case. -/
theorem ramp_spec (x lo hi : ℚ) :
    (x ≤ lo → ramp x lo hi = 0) ∧
    (lo < hi → hi ≤ x → ramp x lo hi = 1) ∧
    (lo < hi → ramp ((lo + hi) / 2) lo hi = 1 / 2) ∧
    (0 ≤ ramp x lo hi ∧ ramp x lo hi ≤ 1) ∧
    (hi ≤ lo → ramp x lo hi = 0) := by
  unfold ramp
  refine ⟨?_, ?_, ?_, ?_, ?_⟩
  · intro hx
    split
    · rfl
    · rename_i hlt
      push_neg at hlt
      have hnum : (x - lo) / (hi - lo) ≤ 0 := by
        apply div_nonpos_of_nonpos_of_nonneg <;> linarith
      have : min 1 ((x - lo) / (hi - lo)) ≤ 0 := le_trans (min_le_right _ _) hnum
      simp [max_eq_left this]
  · intro hlt hx
    have hne : ¬ hi ≤ lo := not_le.mpr hlt
    simp only [hne, if_false]
    have hden : (0:ℚ) < hi - lo := by linarith
    have hnum : 1 ≤ (x - lo) / (hi - lo) := by
      rw [le_div_iff₀ hden]; linarith
    rw [min_eq_left hnum, max_eq_right (by norm_num : (0:ℚ) ≤ 1)]
  · intro hlt
    have hne : ¬ hi ≤ lo := not_le.mpr hlt
    simp only [hne, if_false]
    have hden : (0:ℚ) < hi - lo := by linarith
    have hval : ((lo + hi) / 2 - lo) / (hi - lo) = 1 / 2 := by
      field_simp
      ring
    rw [hval]
    rw [min_eq_right (by norm_num : (1:ℚ)/2 ≤ 1),
        max_eq_right (by norm_num : (0:ℚ) ≤ 1/2)]
  · split
    · norm_num
    · constructor
      · exact le_max_left _ _
      · exact max_le (by norm_num) (min_le_left _ _)
  · intro h
    simp [h]

/-- Witness for `ramp_spec` at concrete inputs. -/
theorem ramp_spec_witness :
    ramp (-1) 0 2 = 0 ∧ ramp 5 0 2 = 1 ∧ ramp 1 0 2 = 1 / 2 ∧ ramp 7 3 1 = 0 := by
  refine ⟨(ramp_spec (-1) 0 2).1 (by norm_num),
          (ramp_spec 5 0 2).2.1 (by norm_num) (by norm_num), ?_, ?_⟩
  · have h := (ramp_spec 5 0 2).2.2.1 (by norm_num)
    norm_num at h ⊢
    exact h
  · exact (ramp_spec 7 3 1).2.2.2.2 (by norm_num)

/-- **C7.** RepCounter: the first update only records the phase (count stays
0); a later update increments by exactly 1 iff the previously recorded phase
was ASCENDING and the new one is START or TOP, and otherwise leaves the count
unchanged; the phase sequence [START, DESCENDING, BOTTOM, ASCENDING, START]
yields 0 before the final element and 1 after; and the count never
decreases over any update sequence. -/
theorem repCounter_spec :
    (∀ s : PhaseName, (RepCounter.init.update s).rep_count = 0) ∧
    (∀ (rc : RepCounter) (p : PhaseName) (s : PhaseName), rc.prev = some p →
      (((rc.update s).rep_count = rc.rep_count + 1 ↔
          (p = PhaseName.ASCENDING ∧ (s = PhaseName.START ∨ s = PhaseName.TOP))) ∧
       (¬ (p = PhaseName.ASCENDING ∧ (s = PhaseName.START ∨ s = PhaseName.TOP)) →
          (rc.update s).rep_count = rc.rep_count))) ∧
    ((RepCounter.init.feed
        [PhaseName.START, PhaseName.DESCENDING, PhaseName.BOTTOM,
         PhaseName.ASCENDING]).rep_count = 0 ∧
     (RepCounter.init.feed
        [PhaseName.START, PhaseName.DESCENDING, PhaseName.BOTTOM,
         PhaseName.ASCENDING, PhaseName.START]).rep_count = 1) ∧
    (∀ (rc : RepCounter) (l : List PhaseName),
        rc.rep_count ≤ (rc.feed l).rep_count) := by
  have hstep : ∀ (rc : RepCounter) (s : PhaseName),
      rc.rep_count ≤ (rc.update s).rep_count := by
    rintro ⟨n, prev⟩ s
    cases prev with
    | none => simp [RepCounter.update]
    | some p =>
        by_cases hc : p = PhaseName.ASCENDING ∧ (s = PhaseName.START ∨ s = PhaseName.TOP) <;>
          simp [RepCounter.update, hc]
  refine ⟨?_, ?_, ⟨by decide, by decide⟩, ?_⟩
  · intro s
    rfl
  · intro rc p s hp
    have hup : rc.update s =
        if p = PhaseName.ASCENDING ∧ (s = PhaseName.START ∨ s = PhaseName.TOP)
        then { rep_count := rc.rep_count + 1, prev := some s }
        else { rep_count := rc.rep_count, prev := some s } := by
      unfold RepCounter.update
      rw [hp]
    constructor
    · by_cases hc : p = PhaseName.ASCENDING ∧ (s = PhaseName.START ∨ s = PhaseName.TOP)
      · rw [hup, if_pos hc]
        simp [hc]
      · rw [hup, if_neg hc]
        simp only [hc, iff_false]
        omega
    · intro hc
      rw [hup, if_neg hc]
  · intro rc l
    induction l generalizing rc with
    | nil => simp [RepCounter.feed]
    | cons a as ih =>
        calc rc.rep_count ≤ (rc.update a).rep_count := hstep rc a
          _ ≤ ((rc.update a).feed as).rep_count := ih (rc.update a)

/-- Witness for `repCounter_spec`: instantiate the conditional clause at a
concrete counter state and phase. -/
theorem repCounter_spec_witness :
    ((⟨2, some PhaseName.ASCENDING⟩ : RepCounter).prev = some PhaseName.ASCENDING) ∧
    (((⟨2, some PhaseName.ASCENDING⟩ : RepCounter).update PhaseName.TOP).rep_count = 2 + 1) :=
  ⟨rfl,
   (repCounter_spec.2.1 ⟨2, some PhaseName.ASCENDING⟩ PhaseName.ASCENDING
      PhaseName.TOP rfl).1.mpr ⟨rfl, Or.inr rfl⟩⟩

/-- If no rule's condition holds, the scan yields no transition. -/
theorem scanRules_eq_none {F C : Type} (f : F) (c : C) :
    ∀ l : List (Transition F C), (∀ t ∈ l, t.condition f c = false) →
      scanRules f c l = none := by
  intro l hl
  induction l with
  | nil => rfl
  | cons t ts ih =>
      have ht : t.condition f c = false := hl t (List.mem_cons_self t ts)
      simp only [scanRules, ht, Bool.false_eq_true, if_false]
      exact ih (fun u hu => hl u (List.mem_cons_of_mem t hu))

/-- The scan yields the target of rule `i` when rule `i`'s condition holds
and every earlier rule's condition fails. -/
theorem scanRules_eq_get {F C : Type} (f : F) (c : C) :
    ∀ (l : List (Transition F C)) (i : ℕ) (hi : i < l.length),
      (l.get ⟨i, hi⟩).condition f c = true →
      (∀ (j : ℕ) (hj : j < i), (l.get ⟨j, lt_trans hj hi⟩).condition f c = false) →
      scanRules f c l = some (l.get ⟨i, hi⟩).to_state := by
  intro l
  induction l with
  | nil => intro i hi; exact absurd hi (by simp)
  | cons t ts ih =>
      intro i hi hcond hbefore
      cases i with
      | zero =>
          simp only [List.get] at hcond ⊢
          simp [scanRules, hcond]
      | succ n =>
          have ht : t.condition f c = false := by
            have := hbefore 0 (Nat.succ_pos n)
            simpa using this
          simp only [scanRules, ht, Bool.false_eq_true, if_false]
          simp only [List.get] at hcond ⊢
          exact ih n (by simpa using hi) hcond
            (fun j hj => by
              have := hbefore (j + 1) (Nat.succ_lt_succ hj)
              simpa using this)

/-- A successful scan names a registered rule whose condition held. -/
theorem scanRules_some_mem {F C : Type} (f : F) (c : C) :
    ∀ (l : List (Transition F C)) (s : PhaseName), scanRules f c l = some s →
      ∃ t ∈ l, t.condition f c = true ∧ t.to_state = s := by
  intro l
  induction l with
  | nil => intro s h; exact absurd h (by simp [scanRules])
  | cons t ts ih =>
      intro s h
      by_cases ht : t.condition f c = true
      · simp only [scanRules, ht, if_true] at h
        exact ⟨t, List.mem_cons_self t ts, ht, by injection h⟩
      · simp only [scanRules, ht, if_false] at h
        obtain ⟨u, hu, hcu, hsu⟩ := ih s h
        exact ⟨u, List.mem_cons_of_mem t hu, hcu, hsu⟩

/-- **C5.** On every FSM update call: if rule `i` (in registration order) for
the current state is the first whose predicate holds, exactly that rule
fires; at most one transition occurs per call (the new state is either the
old one or the target of a single registered rule whose predicate held);
if no registered rule's predicate holds, the state is unchanged; and
the context and rule table are untouched by `update`. -/
theorem fsm_update_spec {F C : Type} (m : FiniteStateMachine F C) (f : F) :
    (∀ (i : ℕ) (hi : i < (m.transitions m.current).length),
        ((m.transitions m.current).get ⟨i, hi⟩).condition f m.ctx = true →
        (∀ (j : ℕ) (hj : j < i),
          ((m.transitions m.current).get ⟨j, lt_trans hj hi⟩).condition f m.ctx = false) →
        (m.update f).current = ((m.transitions m.current).get ⟨i, hi⟩).to_state) ∧
    ((m.update f).current = m.current ∨
      ∃ t ∈ m.transitions m.current, t.condition f m.ctx = true ∧
        (m.update f).current = t.to_state) ∧
    ((∀ t ∈ m.transitions m.current, t.condition f m.ctx = false) →
        (m.update f).current = m.current) ∧
    (m.update f).ctx = m.ctx ∧ (m.update f).transitions = m.transitions := by
  refine ⟨?_, ?_, ?_, ?_, ?_⟩
  · intro i hi hcond hbefore
    have h := scanRules_eq_get f m.ctx (m.transitions m.current) i hi hcond hbefore
    simp [FiniteStateMachine.update, h]
  · unfold FiniteStateMachine.update
    cases h : scanRules f m.ctx (m.transitions m.current) with
    | none => exact Or.inl rfl
    | some s =>
        obtain ⟨t, ht, hct, hst⟩ := scanRules_some_mem f m.ctx _ s h
        exact Or.inr ⟨t, ht, hct, by simp [hst]⟩
  · intro hall
    have h := scanRules_eq_none f m.ctx (m.transitions m.current) hall
    simp [FiniteStateMachine.update, h]
  · unfold FiniteStateMachine.update
    cases h : scanRules f m.ctx (m.transitions m.current) <;> rfl
  · unfold FiniteStateMachine.update
    cases h : scanRules f m.ctx (m.transitions m.current) <;> rfl

/-- Witness for `fsm_update_spec`: a two-rule machine where the second rule
is the first to fire. -/
theorem fsm_update_spec_witness :
    ((FiniteStateMachine.update
        ⟨PhaseName.START, (),
          fun _ => [⟨PhaseName.DESCENDING, fun _ _ => false⟩,
                    ⟨PhaseName.BOTTOM, fun _ _ => true⟩]⟩
        ()).current : PhaseName) = PhaseName.BOTTOM := by
  have h := (fsm_update_spec
      (⟨PhaseName.START, (),
        fun _ => [⟨PhaseName.DESCENDING, fun _ _ => false⟩,
                  ⟨PhaseName.BOTTOM, fun _ _ => true⟩]⟩ :
        FiniteStateMachine Unit Unit) ()).1 1 (by norm_num) rfl
      (fun j hj => by interval_cases j; rfl)
  simpa using h

/-- **C6.** Each FSM variant registers a DESCENDING → ASCENDING fallback:
when the tracked velocity has reversed past `vel_eps` while the configured
bottom angle threshold has not been reached, one update from DESCENDING
moves directly to ASCENDING (never visiting BOTTOM). -/
theorem fsm_fallback_to_ascending :
    (∀ (th : SquatTh) (f : Features) (va vv : ℚ),
        0 ≤ th.vel_eps →
        fLookup f "knee_angle_avg" = some va →
        fLookup f "knee_vel_avg" = some vv →
        th.vel_eps < vv → th.bottom_knee < va →
        ((⟨PhaseName.DESCENDING, (), squatTransitions th⟩ :
            FiniteStateMachine Features Unit).update f).current = PhaseName.ASCENDING) ∧
    (∀ (th : PushupTh) (f : Features) (va vv : ℚ),
        0 ≤ th.vel_eps →
        fLookup f "elbow_angle_avg" = some va →
        fLookup f "elbow_vel_avg" = some vv →
        th.vel_eps < vv → th.bottom_elbow < va →
        ((⟨PhaseName.DESCENDING, (), pushupTransitions th⟩ :
            FiniteStateMachine Features Unit).update f).current = PhaseName.ASCENDING) ∧
    (∀ (th : LungeTh) (f : Features) (vf vb vv : ℚ),
        0 ≤ th.vel_eps →
        fLookup f "front_knee_angle" = some vf →
        fLookup f "back_knee_angle" = some vb →
        fLookup f "front_knee_vel" = some vv →
        th.vel_eps < vv →
        (th.bottom_front_knee < vf ∨ th.bottom_back_knee < vb) →
        ((⟨PhaseName.DESCENDING, (), lungeTransitions th⟩ :
            FiniteStateMachine Features Unit).update f).current = PhaseName.ASCENDING) := by
  refine ⟨?_, ?_, ?_⟩
  · intro th f va vv heps hva hvv hv ha
    have hfa : fIdx f "knee_angle_avg" = va := by simp [fIdx, hva]
    have hfv : fIdx f "knee_vel_avg" = vv := by simp [fIdx, hvv]
    have habs : ¬ |vv| ≤ th.vel_eps := by
      rw [abs_of_pos (lt_of_le_of_lt heps hv)]
      exact not_le.mpr hv
    have hc1 : ¬ (va ≤ th.bottom_knee ∧ |vv| ≤ th.vel_eps) := fun h => habs h.2
    simp [FiniteStateMachine.update, squatTransitions, scanRules, hfa, hfv,
          hc1, hv, ha]
  · intro th f va vv heps hva hvv hv ha
    have hfa : fIdx f "elbow_angle_avg" = va := by simp [fIdx, hva]
    have hfv : fIdx f "elbow_vel_avg" = vv := by simp [fIdx, hvv]
    have habs : ¬ |vv| ≤ th.vel_eps := by
      rw [abs_of_pos (lt_of_le_of_lt heps hv)]
      exact not_le.mpr hv
    have hc1 : ¬ (va ≤ th.bottom_elbow ∧ |vv| ≤ th.vel_eps) := fun h => habs h.2
    simp [FiniteStateMachine.update, pushupTransitions, scanRules, hfa, hfv,
          hc1, hv, ha]
  · intro th f vf vb vv heps hvf hvb hvv hv ha
    have hfa : fIdx f "front_knee_angle" = vf := by simp [fIdx, hvf]
    have hfb : fIdx f "back_knee_angle" = vb := by simp [fIdx, hvb]
    have hfv : fIdx f "front_knee_vel" = vv := by simp [fIdx, hvv]
    have habs : ¬ |vv| ≤ th.vel_eps := by
      rw [abs_of_pos (lt_of_le_of_lt heps hv)]
      exact not_le.mpr hv
    have hc1 : ¬ (vf ≤ th.bottom_front_knee ∧ vb ≤ th.bottom_back_knee ∧
        |vv| ≤ th.vel_eps) := fun h => habs h.2.2
    have hc2 : th.vel_eps < vv ∧
        (th.bottom_front_knee < vf ∨ th.bottom_back_knee < vb) := ⟨hv, ha⟩
    simp [FiniteStateMachine.update, lungeTransitions, scanRules, hfa, hfb, hfv,
          hc1, hc2]

/-- Positions with velocity-suffixed keys pass through `smootherGo`
unchanged, for any filter-dict state. -/
theorem smootherGo_get?_vel (s : SignalSmoother) :
    ∀ (signals : Features) (fm : List (String × Filter)) (i : ℕ)
      (k : String) (v : ℚ),
      signals.get? i = some (k, v) →
      (endsWithQ k "_vel" = true ∨ endsWithQ k "_vel_avg" = true) →
      (smootherGo s fm signals).2.get? i = some (k, v) := by
  intro signals
  induction signals with
  | nil => intro fm i k v h _; simp at h
  | cons kv rest ih =>
      intro fm i k v h hvel
      cases i with
      | zero =>
          have hkv : kv = (k, v) := by simpa using h
          subst hkv
          simp only [smootherGo, smootherStep]
          rw [if_pos hvel]
          rfl
      | succ n =>
          simp only [smootherGo]
          exact ih _ n k v (by simpa using h) hvel

/-- **C8.** For every smoother state (hence at every step of every sequence
of update calls) and every entry of the signal dict whose key ends in a
velocity suffix ("_vel" or "_vel_avg"), the output of
`SignalSmoother.update` at that entry equals the raw input value. -/
theorem smoother_velocity_passthrough (s : SignalSmoother) (signals : Features)
    (i : ℕ) (k : String) (v : ℚ)
    (hkv : signals.get? i = some (k, v))
    (hvel : endsWithQ k "_vel" = true ∨ endsWithQ k "_vel_avg" = true) :
    (s.update signals).2.get? i = some (k, v) :=
  smootherGo_get?_vel s signals s.filters i k v hkv hvel

/-- Witness for `smoother_velocity_passthrough` on a concrete smoother and
signal dict. -/
theorem smoother_velocity_passthrough_witness :
    ((⟨"ema", 1/4, 1/100, 1, []⟩ : SignalSmoother).update
        [("knee_angle_avg", 150), ("knee_vel_avg", 7)]).2.get? 1
      = some ("knee_vel_avg", 7) :=
  smoother_velocity_passthrough ⟨"ema", 1/4, 1/100, 1, []⟩
    [("knee_angle_avg", 150), ("knee_vel_avg", 7)] 1 "knee_vel_avg" 7 rfl
    (Or.inr (by decide))

/-- Dict assignment then lookup of the same key. -/
theorem lookup_dictInsert_self {α : Type} :
    ∀ (l : List (String × α)) (k : String) (v : α),
      List.lookup k (dictInsert l k v) = some v := by
  intro l
  induction l with
  | nil => intro k v; simp [dictInsert, List.lookup]
  | cons kv rest ih =>
      intro k v
      by_cases hk : kv.1 = k
      · simp [dictInsert, hk, List.lookup]
      · obtain ⟨k0, v0⟩ := kv
        simp only at hk
        simp only [dictInsert, hk, if_false, List.lookup]
        have : (k == k0) = false := by
          simp [beq_iff_eq]
          exact fun h => hk h.symm
        rw [this]
        exact ih k v

/-- Dict assignment leaves other keys' bindings alone. -/
theorem lookup_dictInsert_ne {α : Type} :
    ∀ (l : List (String × α)) (k k' : String) (v : α), k' ≠ k →
      List.lookup k' (dictInsert l k v) = List.lookup k' l := by
  intro l
  induction l with
  | nil =>
      intro k k' v hne
      have hb : (k' == k) = false := beq_eq_false_iff_ne.mpr hne
      simp [dictInsert, List.lookup, hb]
  | cons kv rest ih =>
      intro k k' v hne
      obtain ⟨k0, v0⟩ := kv
      by_cases hk : k0 = k
      · subst hk
        have hb : (k' == k0) = false := beq_eq_false_iff_ne.mpr hne
        simp only [dictInsert, if_pos rfl, List.lookup, hb]
      · simp only [dictInsert, if_neg hk, List.lookup]
        cases hbeq : (k' == k0) with
        | true => rfl
        | false => exact ih k k' v hne

/-- Keys not occurring in the processed signals keep their filter binding. -/
theorem smootherGo_filters_not_mem (s : SignalSmoother) :
    ∀ (signals : Features) (fm : List (String × Filter)) (k : String),
      k ∉ signals.map Prod.fst →
      List.lookup k (smootherGo s fm signals).1 = List.lookup k fm := by
  intro signals
  induction signals with
  | nil => intro fm k _; rfl
  | cons kv rest ih =>
      intro fm k hk
      have hk1 : k ≠ kv.1 := by
        intro h
        exact hk (by simp [h])
      have hkrest : k ∉ rest.map Prod.fst := by
        intro h
        exact hk (by simp [h])
      simp only [smootherGo]
      rw [ih _ k hkrest]
      unfold smootherStep
      split
      · rfl
      · exact lookup_dictInsert_ne fm kv.1 k _ hk1

/-- The output dict of one smoother update has exactly the input keys, in
input order. -/
theorem smootherGo_keys (s : SignalSmoother) :
    ∀ (signals : Features) (fm : List (String × Filter)),
      (smootherGo s fm signals).2.map Prod.fst = signals.map Prod.fst := by
  intro signals
  induction signals with
  | nil => intro fm; rfl
  | cons kv rest ih =>
      intro fm
      simp only [smootherGo, List.map]
      rw [ih]
      unfold smootherStep
      split
      · rfl
      · rfl

/-- Lookup skips a block of bindings with other keys. -/
theorem lookup_append_not_mem {α : Type} :
    ∀ (l1 l2 : List (String × α)) (k : String), k ∉ l1.map Prod.fst →
      List.lookup k (l1 ++ l2) = List.lookup k l2 := by
  intro l1
  induction l1 with
  | nil => intro l2 k _; rfl
  | cons kv rest ih =>
      intro l2 k hk
      have hk1 : k ≠ kv.1 := fun h => hk (by simp [h])
      obtain ⟨k0, v0⟩ := kv
      simp only [List.cons_append, List.lookup]
      have : (k == k0) = false := by
        simp only at hk1
        simp [beq_iff_eq, hk1]
      rw [this]
      exact ih l2 k (fun h => hk (by simp [h]))

/-- `smootherGo` over an appended signal list splits into two passes. -/
theorem smootherGo_append (s : SignalSmoother) :
    ∀ (l1 l2 : Features) (fm : List (String × Filter)),
      smootherGo s fm (l1 ++ l2)
        = ((smootherGo s (smootherGo s fm l1).1 l2).1,
           (smootherGo s fm l1).2 ++ (smootherGo s (smootherGo s fm l1).1 l2).2) := by
  intro l1
  induction l1 with
  | nil => intro l2 fm; rfl
  | cons kv rest ih =>
      intro l2 fm
      simp only [List.cons_append, smootherGo, List.append_eq]
      rw [ih]

/-- Processing a signal dict containing exactly one binding of key `k`
(non-velocity) advances exactly the filter selected for `k` at that point
— the stored one when present, a fresh `mkFilter` otherwise — and outputs
the advanced filter's value for `k`. -/
theorem smootherGo_key_step (s : SignalSmoother) (pre post : Features)
    (fm : List (String × Filter)) (k : String) (v : ℚ)
    (hnonvel : ¬ (endsWithQ k "_vel" = true ∨ endsWithQ k "_vel_avg" = true))
    (hpre : k ∉ pre.map Prod.fst) (hpost : k ∉ post.map Prod.fst) (filt : Filter)
    (hfilt : (match List.lookup k fm with
              | none => s.mkFilter
              | some f => f) = filt) :
    List.lookup k (smootherGo s fm (pre ++ (k, v) :: post)).1
      = some ((filt.update v).1) ∧
    List.lookup k (smootherGo s fm (pre ++ (k, v) :: post)).2
      = some ((filt.update v).2) := by
  rw [smootherGo_append]
  have h1 : List.lookup k (smootherGo s fm pre).1 = List.lookup k fm :=
    smootherGo_filters_not_mem s pre fm k hpre
  have hstep2 : smootherStep s (smootherGo s fm pre).1 k v
      = (dictInsert (smootherGo s fm pre).1 k ((filt.update v).1),
         (k, (filt.update v).2)) := by
    unfold smootherStep
    rw [if_neg hnonvel, h1, hfilt]
  have hcons : smootherGo s (smootherGo s fm pre).1 ((k, v) :: post)
      = ((smootherGo s (dictInsert (smootherGo s fm pre).1 k ((filt.update v).1)) post).1,
         (k, (filt.update v).2)
           :: (smootherGo s (dictInsert (smootherGo s fm pre).1 k ((filt.update v).1)) post).2) := by
    show ((smootherGo s (smootherStep s (smootherGo s fm pre).1 k v).1 post).1,
          (smootherStep s (smootherGo s fm pre).1 k v).2
            :: (smootherGo s (smootherStep s (smootherGo s fm pre).1 k v).1 post).2) = _
    rw [hstep2]
  rw [hcons]
  constructor
  · rw [smootherGo_filters_not_mem s post _ k hpost]
    exact lookup_dictInsert_self _ k _
  · have hkeys : k ∉ ((smootherGo s fm pre).2).map Prod.fst := by
      rw [smootherGo_keys]
      exact hpre
    rw [lookup_append_not_mem _ _ k hkeys]
    simp [List.lookup]

/-- **C4 (amended).** Filter identity is stable: on a key's first
appearance (no filter yet) the smoother stores `mkFilter` advanced by the
first value, and on every later appearance it advances exactly the stored
filter; for EMA the first observation seeds the state so the first output is
the raw value, while a freshly constructed Kalman filter (x=0, p=1) returns
`(1+q)/(1+q+r) · z` for its first observation `z`, not `z` itself. -/
theorem smoother_filter_identity :
    (∀ (s : SignalSmoother) (pre post : Features) (k : String) (v : ℚ),
      ¬ (endsWithQ k "_vel" = true ∨ endsWithQ k "_vel_avg" = true) →
      k ∉ pre.map Prod.fst → k ∉ post.map Prod.fst →
      ((List.lookup k s.filters = none →
          List.lookup k (s.update (pre ++ (k, v) :: post)).1.filters
            = some ((s.mkFilter.update v).1) ∧
          List.lookup k (s.update (pre ++ (k, v) :: post)).2
            = some ((s.mkFilter.update v).2)) ∧
       (∀ filt : Filter, List.lookup k s.filters = some filt →
          List.lookup k (s.update (pre ++ (k, v) :: post)).1.filters
            = some ((filt.update v).1) ∧
          List.lookup k (s.update (pre ++ (k, v) :: post)).2
            = some ((filt.update v).2)))) ∧
    (∀ (alpha x : ℚ),
        (Filter.ema alpha none).update x = (Filter.ema alpha (some x), x)) ∧
    (∀ (q r z : ℚ),
        ((Filter.kal q r 0 1 0).update z).2 = ((1 + q) / (1 + q + r)) * z) := by
  refine ⟨?_, fun alpha x => rfl, ?_⟩
  · intro s pre post k v hnonvel hpre hpost
    constructor
    · intro hnone
      exact smootherGo_key_step s pre post s.filters k v hnonvel hpre hpost
        s.mkFilter (by rw [hnone])
    · intro filt hsome
      exact smootherGo_key_step s pre post s.filters k v hnonvel hpre hpost
        filt (by rw [hsome])
  · intro q r z
    simp only [Filter.update]
    ring_nf

/-- Witness for `smoother_filter_identity`: first observation of a fresh key
on an EMA smoother stores the seeded filter and echoes the raw value. -/
theorem smoother_filter_identity_witness :
    List.lookup "a"
        ((⟨"ema", 1/4, 1/100, 1, []⟩ : SignalSmoother).update [("a", 7)]).1.filters
      = some (Filter.ema (1/4) (some 7)) ∧
    List.lookup "a"
        ((⟨"ema", 1/4, 1/100, 1, []⟩ : SignalSmoother).update [("a", 7)]).2
      = some 7 := by
  have h := (smoother_filter_identity.1 ⟨"ema", 1/4, 1/100, 1, []⟩ [] [] "a" 7
      (by decide) (by simp) (by simp)).1 rfl
  simpa [SignalSmoother.mkFilter, Filter.update] using h

/-- **C4 (counterexample).** With the Kalman filter kind (default q=0.01,
r=1.0), the smoothed output for a key's first observation 1 is 101/201, not
the raw observation: the first-output-equals-raw part of the claim fails for
the Kalman branch. -/
theorem kalman_first_output_not_raw :
    ((⟨"kalman", 3/10, 1/100, 1, []⟩ : SignalSmoother).update [("a", 1)]).2
        = [("a", 101/201)] ∧
    ((101 : ℚ)/201) ≠ 1 := by
  constructor
  · have hv : ¬ (endsWithQ "a" "_vel" = true ∨ endsWithQ "a" "_vel_avg" = true) := by
      decide
    have hm : (("kalman" : String) = "ema") = False := by
      simp
    simp only [SignalSmoother.update, smootherGo, smootherStep]
    rw [if_neg hv]
    simp only [List.lookup, SignalSmoother.mkFilter, hm]
    norm_num [Filter.update]
  · norm_num

/-- **C10.** `predict` picks, deterministically, the first label in the
fixed order pushup, squat, lunge whose composite score attains the maximum
— so on exact ties the earliest tied label wins — and its confidence is
that maximal score. -/
theorem predict_tie_break (th : ClassifierTh) (f : Features) :
    (predict th f).confidence
      = max (pushupScore th f) (max (squatScore th f) (lungeScore th f)) ∧
    (predict th f).label
      = (if pushupScore th f
            = max (pushupScore th f) (max (squatScore th f) (lungeScore th f))
         then "pushup"
         else if squatScore th f
            = max (pushupScore th f) (max (squatScore th f) (lungeScore th f))
         then "squat"
         else "lunge") := by
  set ps := pushupScore th f with hps
  set ss := squatScore th f with hss
  set ls := lungeScore th f with hls
  have hlab : (predict th f).label
      = (pyMaxEntry ("pushup", ps) [("squat", ss), ("lunge", ls)]).1 := rfl
  have hconf : (predict th f).confidence
      = (pyMaxEntry ("pushup", ps) [("squat", ss), ("lunge", ls)]).2 := rfl
  rcases lt_or_le ps ss with h1 | h1
  · rcases lt_or_le ss ls with h2 | h2
    · -- squat beats pushup, then lunge beats squat
      have hbest : pyMaxEntry ("pushup", ps) [("squat", ss), ("lunge", ls)]
          = ("lunge", ls) := by
        unfold pyMaxEntry
        simp only [List.foldl]
        rw [if_pos h1, if_pos h2]
      have hmax : max ps (max ss ls) = ls := by
        rw [max_eq_right (le_of_lt h2), max_eq_right (le_of_lt (lt_trans h1 h2))]
      rw [hlab, hconf, hbest, hmax,
          if_neg (ne_of_lt (lt_trans h1 h2)), if_neg (ne_of_lt h2)]
      exact ⟨rfl, rfl⟩
    · -- squat beats pushup and survives lunge
      have hbest : pyMaxEntry ("pushup", ps) [("squat", ss), ("lunge", ls)]
          = ("squat", ss) := by
        unfold pyMaxEntry
        simp only [List.foldl]
        rw [if_pos h1, if_neg (not_lt.mpr h2)]
      have hmax : max ps (max ss ls) = ss := by
        rw [max_eq_left h2, max_eq_right (le_of_lt h1)]
      rw [hlab, hconf, hbest, hmax, if_neg (ne_of_lt h1), if_pos rfl]
      exact ⟨rfl, rfl⟩
  · rcases lt_or_le ps ls with h2 | h2
    · -- pushup survives squat, lunge beats pushup
      have hbest : pyMaxEntry ("pushup", ps) [("squat", ss), ("lunge", ls)]
          = ("lunge", ls) := by
        unfold pyMaxEntry
        simp only [List.foldl]
        rw [if_neg (not_lt.mpr h1), if_pos h2]
      have hmax : max ps (max ss ls) = ls := by
        rw [max_eq_right (le_of_lt (lt_of_le_of_lt h1 h2)),
            max_eq_right (le_of_lt h2)]
      rw [hlab, hconf, hbest, hmax, if_neg (ne_of_lt h2),
          if_neg (ne_of_lt (lt_of_le_of_lt h1 h2))]
      exact ⟨rfl, rfl⟩
    · -- pushup survives both: ties go to pushup
      have hbest : pyMaxEntry ("pushup", ps) [("squat", ss), ("lunge", ls)]
          = ("pushup", ps) := by
        unfold pyMaxEntry
        simp only [List.foldl]
        rw [if_neg (not_lt.mpr h1), if_neg (not_lt.mpr h2)]
      have hmax : max ps (max ss ls) = ps :=
        max_eq_left (max_le h1 h2)
      rw [hlab, hconf, hbest, hmax, if_pos rfl]
      exact ⟨rfl, rfl⟩

/-- Incrementing a warning's tally raises the total by one. -/
theorem sumCounts_counterInc :
    ∀ (c : List (String × ℕ)) (w : String),
      sumCounts (counterInc c w) = sumCounts c + 1 := by
  intro c
  induction c with
  | nil => intro w; rfl
  | cons kn rest ih =>
      intro w
      obtain ⟨k, n⟩ := kn
      by_cases h : k = w
      · simp only [counterInc, h, if_true, sumCounts, List.map, List.sum_cons]
        omega
      · simp only [counterInc, h, if_false, sumCounts, List.map, List.sum_cons]
        have := ih w
        simp only [sumCounts] at this
        omega

/-- Counting a list of warnings raises the total by the list's length. -/
theorem sumCounts_foldl :
    ∀ (ws : List String) (c : List (String × ℕ)),
      sumCounts (ws.foldl counterInc c) = sumCounts c + ws.length := by
  intro ws
  induction ws with
  | nil => intro c; rfl
  | cons w rest ih =>
      intro c
      simp only [List.foldl, List.length_cons]
      rw [ih (counterInc c w), sumCounts_counterInc]
      omega

/-- Frame-step bookkeeping facts for `processFrame`. -/
theorem processFrame_fields (s : SummaryState) (label : String)
    (w : List String) :
    (processFrame s label w).warnings_count
      = (if s.current_ex ≠ some label then swapExercise s label
         else s).warnings_count + w.length ∧
    (processFrame s label w).warning_counter
      = w.foldl counterInc
          (if s.current_ex ≠ some label then swapExercise s label
           else s).warning_counter ∧
    (processFrame s label w).warnings_breakdown
      = (processFrame s label w).warning_counter ∧
    (processFrame s label w).current_ex = some label := by
  refine ⟨?_, rfl, rfl, ?_⟩
  · show (if w.isEmpty then _ else _) = _
    by_cases hw : w.isEmpty
    · rw [if_pos hw]
      have : w.length = 0 := by
        cases w
        · rfl
        · simp [List.isEmpty] at hw
      omega
    · rw [if_neg hw]
  · show (if s.current_ex ≠ some label then swapExercise s label
          else s).current_ex = some label
    by_cases hc : s.current_ex ≠ some label
    · rw [if_pos hc]
      rfl
    · rw [if_neg hc]
      push_neg at hc
      exact hc

/-- **C2 (counterexample).** With an exercise change after a warning
(one squat frame producing one warning, then one pushup frame), the
breakdown is cleared by the swap but `warnings_count` is not: the sums
diverge (0 versus 1), falsifying the claimed invariant for sessions in
which the active exercise label changes. -/
theorem warnings_breakdown_mismatch :
    sumCounts (runSummary initSummary
        [("squat", ["Knee alignment uneven"]), ("pushup", [])]).warnings_breakdown
      = 0 ∧
    (runSummary initSummary
        [("squat", ["Knee alignment uneven"]), ("pushup", [])]).warnings_count
      = 1 ∧
    (0 : ℕ) ≠ 1 := by
  refine ⟨rfl, rfl, by decide⟩

/-- **C2 (amended).** For sessions in which every processed frame carries
the same exercise label (no exercise change after the initial selection),
after every processed frame the sum of the `warnings_breakdown` values
equals `warnings_count`. -/
theorem warnings_breakdown_single_label (frames : List (String × List String))
    (label : String) (hl : ∀ fr ∈ frames, fr.1 = label) (n : ℕ) :
    sumCounts (runSummary initSummary (frames.take n)).warnings_breakdown
      = (runSummary initSummary (frames.take n)).warnings_count := by
  have key : ∀ (fs : List (String × List String)), (∀ fr ∈ fs, fr.1 = label) →
      ∀ s : SummaryState,
        (sumCounts s.warning_counter = s.warnings_count ∧
         sumCounts s.warnings_breakdown = s.warnings_count ∧
         (s.current_ex = some label ∨
           (s.warnings_count = 0 ∧ s.warning_counter = []))) →
        (sumCounts (runSummary s fs).warning_counter
            = (runSummary s fs).warnings_count ∧
         sumCounts (runSummary s fs).warnings_breakdown
            = (runSummary s fs).warnings_count ∧
         ((runSummary s fs).current_ex = some label ∨
           ((runSummary s fs).warnings_count = 0 ∧
            (runSummary s fs).warning_counter = []))) := by
    intro fs
    induction fs with
    | nil => intro _ s hs; exact hs
    | cons fr rest ih =>
        intro hfs s hs
        have hfr1 : fr.1 = label := hfs fr (by simp)
        have hrest : ∀ g ∈ rest, g.1 = label := fun g hg => hfs g (by simp [hg])
        obtain ⟨h1, h2, h3⟩ := hs
        obtain ⟨hwcnt, hwctr, hbd, hex⟩ := processFrame_fields s fr.1 fr.2
        have hs1c : sumCounts ((if s.current_ex ≠ some fr.1 then swapExercise s fr.1
          else s).warning_counter)
            = (if s.current_ex ≠ some fr.1 then swapExercise s fr.1
               else s).warnings_count := by
          by_cases hc : s.current_ex ≠ some fr.1
          · rcases h3 with h3 | ⟨hw0, _⟩
            · exact absurd (by rw [h3, hfr1]) hc
            · rw [if_pos hc]
              show sumCounts [] = s.warnings_count
              rw [hw0]
              rfl
          · rw [if_neg hc]
            exact h1
        have hA : sumCounts (processFrame s fr.1 fr.2).warning_counter
            = (processFrame s fr.1 fr.2).warnings_count := by
          rw [hwctr, hwcnt, sumCounts_foldl, hs1c]
        have hB : sumCounts (processFrame s fr.1 fr.2).warnings_breakdown
            = (processFrame s fr.1 fr.2).warnings_count := by
          rw [hbd]
          exact hA
        have step : runSummary s (fr :: rest)
            = runSummary (processFrame s fr.1 fr.2) rest := rfl
        rw [step]
        exact ih hrest (processFrame s fr.1 fr.2)
          ⟨hA, hB, Or.inl (by rw [hex, hfr1])⟩
  exact (key (frames.take n)
    (fun fr hfr => hl fr (List.take_subset n frames hfr))
    initSummary ⟨rfl, rfl, Or.inr ⟨rfl, rfl⟩⟩).2.1

/-- Witness for `warnings_breakdown_single_label` on a one-frame squat
session. -/
theorem warnings_breakdown_single_label_witness :
    (∀ fr ∈ [("squat", ["Knee alignment uneven"])], fr.1 = "squat") ∧
    sumCounts (runSummary initSummary
        ([("squat", ["Knee alignment uneven"])].take 1)).warnings_breakdown
      = (runSummary initSummary
          ([("squat", ["Knee alignment uneven"])].take 1)).warnings_count :=
  ⟨by simp,
   warnings_breakdown_single_label [("squat", ["Knee alignment uneven"])]
     "squat" (by simp) 1⟩

/-- `_update_minima` never changes the exercise, thresholds, or the
previous-phase marker. -/
theorem updateMinima_fixed (e : FormEvaluator) (phase : PhaseName)
    (f : Features) :
    (updateMinima e phase f).exercise = e.exercise ∧
    (updateMinima e phase f).th = e.th ∧
    (updateMinima e phase f).prev_phase = e.prev_phase := by
  unfold updateMinima
  dsimp only
  repeat' split
  all_goals exact ⟨rfl, rfl, rfl⟩

/-- For a squat evaluator, `scorePhase` is minima update, squat scoring,
then recording the phase. -/
theorem scorePhase_squat (e : FormEvaluator) (phase : PhaseName) (f : Features)
    (hex : e.exercise = "squat") :
    scorePhase e phase f
      = ({ updateMinima e phase f with prev_phase := some phase },
         squatEval (updateMinima e phase f) phase f) := by
  have h1 := (updateMinima_fixed e phase f).1
  simp only [scorePhase]
  rw [if_pos (by rw [h1, hex])]

/-- The squat scorer adds no depth warning when the depth guard fails. -/
theorem squatEval_no_depth (e : FormEvaluator) (phase : PhaseName)
    (f : Features)
    (h : ¬ (isTurnaroundToAscending e phase ∧
        depthViolated e.min_knee (thIdx e.th "bottom_knee_max") = true)) :
    hasDepthWarning (squatEval e phase f) = false := by
  simp only [squatEval, hasDepthWarning]
  rw [if_neg h]
  by_cases hsym : thIdx e.th "sym_knee_max" < fGetD f "sym_knee" 0
  · rw [if_pos hsym]
    decide
  · rw [if_neg hsym]
    decide

/-- The squat scorer adds the depth warning when the depth guard holds. -/
theorem squatEval_depth (e : FormEvaluator) (phase : PhaseName) (f : Features)
    (h : isTurnaroundToAscending e phase ∧
        depthViolated e.min_knee (thIdx e.th "bottom_knee_max") = true) :
    hasDepthWarning (squatEval e phase f) = true := by
  simp only [squatEval, hasDepthWarning]
  rw [if_pos h]
  by_cases hsym : thIdx e.th "sym_knee_max" < fGetD f "sym_knee" 0
  · rw [if_pos hsym]
    decide
  · rw [if_neg hsym]
    decide

/-- `_update_minima` on a squat DESCENDING frame whose knee angle is
present folds the angle into the knee minimum and touches nothing else
the depth check reads. -/
theorem updateMinima_descending_squat (e : FormEvaluator) (f : Features)
    (v : ℚ) (hex : e.exercise = "squat")
    (hv : fLookup f "knee_angle_avg" = some v) :
    (updateMinima e PhaseName.DESCENDING f).min_knee = optMin e.min_knee v := by
  cases helb : fLookup f "elbow_angle_avg" <;>
    simp [updateMinima, hv, helb, hex]

/-- `_update_minima` is the identity on squat BOTTOM frames. -/
theorem updateMinima_bottom_squat (e : FormEvaluator) (f : Features)
    (hex : e.exercise = "squat") :
    updateMinima e PhaseName.BOTTOM f = e := by
  simp [updateMinima, hex]

/-- `_update_minima` is the identity on squat ASCENDING frames. -/
theorem updateMinima_ascending_squat (e : FormEvaluator) (f : Features)
    (hex : e.exercise = "squat") :
    updateMinima e PhaseName.ASCENDING f = e := by
  simp [updateMinima, hex]

/-- `evalRun` over an appended frame list splits into two runs. -/
theorem evalRun_append :
    ∀ (l1 l2 : List (PhaseName × Features)) (e : FormEvaluator),
      evalRun e (l1 ++ l2)
        = ((evalRun (evalRun e l1).1 l2).1,
           (evalRun e l1).2 ++ (evalRun (evalRun e l1).1 l2).2) := by
  intro l1
  induction l1 with
  | nil => intro l2 e; rfl
  | cons pf rest ih =>
      intro l2 e
      simp only [List.cons_append, evalRun, List.append_eq]
      rw [ih]

/-- Running a squat evaluator over DESCENDING frames whose knee angles all
exceed `T` keeps exercise and thresholds, keeps the knee minimum above `T`,
emits no depth warning, and after at least one frame leaves the previous
phase at DESCENDING with a recorded knee minimum above `T`. -/
theorem evalRun_descend_squat (T : ℚ) :
    ∀ (l : List (PhaseName × Features)) (e : FormEvaluator),
      e.exercise = "squat" →
      thIdx e.th "bottom_knee_max" = T →
      (∀ p ∈ l, p.1 = PhaseName.DESCENDING) →
      (∀ p ∈ l, ∃ v, fLookup p.2 "knee_angle_avg" = some v ∧ T < v) →
      (∀ m, e.min_knee = some m → T < m) →
      ((evalRun e l).1.exercise = "squat" ∧
       thIdx (evalRun e l).1.th "bottom_knee_max" = T ∧
       (∀ m, (evalRun e l).1.min_knee = some m → T < m) ∧
       (evalRun e l).2.map hasDepthWarning = List.replicate l.length false ∧
       (l = [] → (evalRun e l).1 = e) ∧
       (l ≠ [] → (evalRun e l).1.prev_phase = some PhaseName.DESCENDING ∧
          ∃ m, (evalRun e l).1.min_knee = some m ∧ T < m)) := by
  intro l
  induction l with
  | nil =>
      intro e hex hT _ _ hmin
      exact ⟨hex, hT, hmin, rfl, fun _ => rfl, fun h => absurd rfl h⟩
  | cons pf rest ih =>
      intro e hex hT hph hkn hmin
      obtain ⟨p0, f0⟩ := pf
      have hp0 : p0 = PhaseName.DESCENDING := hph (p0, f0) (by simp)
      subst hp0
      obtain ⟨v, hv, hTv⟩ := hkn (PhaseName.DESCENDING, f0) (by simp)
      have hstep : scorePhase e PhaseName.DESCENDING f0
          = ({ updateMinima e PhaseName.DESCENDING f0 with
                prev_phase := some PhaseName.DESCENDING },
             squatEval (updateMinima e PhaseName.DESCENDING f0)
               PhaseName.DESCENDING f0) :=
        scorePhase_squat e PhaseName.DESCENDING f0 hex
      have hrun : evalRun e ((PhaseName.DESCENDING, f0) :: rest)
          = ((evalRun (scorePhase e PhaseName.DESCENDING f0).1 rest).1,
             (scorePhase e PhaseName.DESCENDING f0).2
               :: (evalRun (scorePhase e PhaseName.DESCENDING f0).1 rest).2) := rfl
      have hfix := updateMinima_fixed e PhaseName.DESCENDING f0
      have hmk := updateMinima_descending_squat e f0 v hex hv
      have hex1 : (scorePhase e PhaseName.DESCENDING f0).1.exercise = "squat" := by
        rw [hstep]
        show (updateMinima e PhaseName.DESCENDING f0).exercise = "squat"
        rw [hfix.1, hex]
      have hth1 : thIdx (scorePhase e PhaseName.DESCENDING f0).1.th
          "bottom_knee_max" = T := by
        rw [hstep]
        show thIdx (updateMinima e PhaseName.DESCENDING f0).th "bottom_knee_max" = T
        rw [hfix.2.1, hT]
      have hmk1 : (scorePhase e PhaseName.DESCENDING f0).1.min_knee
          = optMin e.min_knee v := by
        rw [hstep]
        exact hmk
      have hmin1 : ∀ m, (scorePhase e PhaseName.DESCENDING f0).1.min_knee
          = some m → T < m := by
        intro m hm
        rw [hmk1] at hm
        cases h0 : e.min_knee with
        | none =>
            rw [h0] at hm
            simp only [optMin] at hm
            rw [← Option.some_inj.mp hm]
            exact hTv
        | some m0 =>
            rw [h0] at hm
            simp only [optMin] at hm
            rw [← Option.some_inj.mp hm]
            exact lt_min (hmin m0 h0) hTv
      have hmk1s : ∃ m, (scorePhase e PhaseName.DESCENDING f0).1.min_knee
          = some m ∧ T < m := by
        rw [hmk1]
        cases h0 : e.min_knee with
        | none => exact ⟨v, rfl, hTv⟩
        | some m0 => exact ⟨min m0 v, rfl, lt_min (hmin m0 h0) hTv⟩
      have hprev1 : (scorePhase e PhaseName.DESCENDING f0).1.prev_phase
          = some PhaseName.DESCENDING := by
        rw [hstep]
      have hwarn : hasDepthWarning (scorePhase e PhaseName.DESCENDING f0).2
          = false := by
        rw [hstep]
        exact squatEval_no_depth _ _ _
          (fun h => absurd h.1.1 (by decide))
      have hrest := ih (scorePhase e PhaseName.DESCENDING f0).1 hex1 hth1
        (fun p hp => hph p (by simp [hp]))
        (fun p hp => hkn p (by simp [hp])) hmin1
      refine ⟨?_, ?_, ?_, ?_, ?_, ?_⟩
      · rw [hrun]; exact hrest.1
      · rw [hrun]; exact hrest.2.1
      · rw [hrun]; exact hrest.2.2.1
      · rw [hrun]
        simp only [List.map, List.length_cons, List.replicate_succ]
        rw [hwarn, hrest.2.2.2.1]
      · intro h; simp at h
      · intro _
        rw [hrun]
        by_cases hr : rest = []
        · have he := hrest.2.2.2.2.1 hr
          rw [he]
          exact ⟨hprev1, hmk1s⟩
        · exact hrest.2.2.2.2.2 hr

/-- Running a squat evaluator over BOTTOM frames changes no minima, emits
no depth warning, and records BOTTOM as the previous phase. -/
theorem evalRun_bottom_squat :
    ∀ (l : List (PhaseName × Features)) (e : FormEvaluator),
      e.exercise = "squat" →
      (∀ p ∈ l, p.1 = PhaseName.BOTTOM) →
      ((evalRun e l).1.exercise = "squat" ∧
       (evalRun e l).1.th = e.th ∧
       (evalRun e l).1.min_knee = e.min_knee ∧
       (evalRun e l).2.map hasDepthWarning = List.replicate l.length false ∧
       (l = [] → (evalRun e l).1 = e) ∧
       (l ≠ [] → (evalRun e l).1.prev_phase = some PhaseName.BOTTOM)) := by
  intro l
  induction l with
  | nil =>
      intro e hex _
      exact ⟨hex, rfl, rfl, rfl, fun _ => rfl, fun h => absurd rfl h⟩
  | cons pf rest ih =>
      intro e hex hph
      obtain ⟨p0, f0⟩ := pf
      have hp0 : p0 = PhaseName.BOTTOM := hph (p0, f0) (by simp)
      subst hp0
      have hstep : scorePhase e PhaseName.BOTTOM f0
          = ({ e with prev_phase := some PhaseName.BOTTOM },
             squatEval e PhaseName.BOTTOM f0) := by
        rw [scorePhase_squat e PhaseName.BOTTOM f0 hex,
            updateMinima_bottom_squat e f0 hex]
      have hrun : evalRun e ((PhaseName.BOTTOM, f0) :: rest)
          = ((evalRun (scorePhase e PhaseName.BOTTOM f0).1 rest).1,
             (scorePhase e PhaseName.BOTTOM f0).2
               :: (evalRun (scorePhase e PhaseName.BOTTOM f0).1 rest).2) := rfl
      have hwarn : hasDepthWarning (scorePhase e PhaseName.BOTTOM f0).2
          = false := by
        rw [hstep]
        exact squatEval_no_depth _ _ _
          (fun h => absurd h.1.1 (by decide))
      have hrest := ih (scorePhase e PhaseName.BOTTOM f0).1
        (by rw [hstep]; exact hex)
        (fun p hp => hph p (by simp [hp]))
      refine ⟨?_, ?_, ?_, ?_, ?_, ?_⟩
      · rw [hrun]; exact hrest.1
      · rw [hrun, hrest.2.1, hstep]
      · rw [hrun, hrest.2.2.1, hstep]
      · rw [hrun]
        simp only [List.map, List.length_cons, List.replicate_succ]
        rw [hwarn, hrest.2.2.2.1]
      · intro h; simp at h
      · intro _
        rw [hrun]
        by_cases hr : rest = []
        · have he := hrest.2.2.2.2.1 hr
          rw [he, hstep]
        · exact hrest.2.2.2.2.2 hr

/-- After the turnaround has been recorded (previous phase ASCENDING), the
remaining ASCENDING frames of a squat rep emit no depth warning. -/
theorem evalRun_ascend_tail_squat :
    ∀ (l : List (PhaseName × Features)) (e : FormEvaluator),
      e.exercise = "squat" →
      e.prev_phase = some PhaseName.ASCENDING →
      (∀ p ∈ l, p.1 = PhaseName.ASCENDING) →
      (evalRun e l).2.map hasDepthWarning = List.replicate l.length false := by
  intro l
  induction l with
  | nil => intro e _ _ _; rfl
  | cons pf rest ih =>
      intro e hex hprev hph
      obtain ⟨p0, f0⟩ := pf
      have hp0 : p0 = PhaseName.ASCENDING := hph (p0, f0) (by simp)
      subst hp0
      have hstep : scorePhase e PhaseName.ASCENDING f0
          = ({ e with prev_phase := some PhaseName.ASCENDING },
             squatEval e PhaseName.ASCENDING f0) := by
        rw [scorePhase_squat e PhaseName.ASCENDING f0 hex,
            updateMinima_ascending_squat e f0 hex]
      have hrun : evalRun e ((PhaseName.ASCENDING, f0) :: rest)
          = ((evalRun (scorePhase e PhaseName.ASCENDING f0).1 rest).1,
             (scorePhase e PhaseName.ASCENDING f0).2
               :: (evalRun (scorePhase e PhaseName.ASCENDING f0).1 rest).2) := rfl
      have hwarn : hasDepthWarning (scorePhase e PhaseName.ASCENDING f0).2
          = false := by
        rw [hstep]
        refine squatEval_no_depth _ _ _ (fun h => ?_)
        rcases h.1.2 with hpp | hpp <;> rw [hprev] at hpp <;> simp at hpp
      rw [hrun]
      simp only [List.map, List.length_cons, List.replicate_succ]
      rw [hwarn]
      have := ih (scorePhase e PhaseName.ASCENDING f0).1
        (by rw [hstep]; exact hex) (by rw [hstep])
        (fun p hp => hph p (by simp [hp]))
      rw [this]

/-- **C3.** For the squat evaluator: over a rep consisting of a nonempty
descent (DESCENDING frames) whose knee angles all stay above
`bottom_knee_max` (equivalently, whose minimum exceeds it), an optional
BOTTOM stretch, and a nonempty ascent (ASCENDING frames), the
shallow-depth warning "Insufficient squat depth" is produced exactly once:
on the turnaround frame where the phase first becomes ASCENDING after
DESCENDING or BOTTOM, and on no BOTTOM-phase frame and no other frame. -/
theorem squat_depth_warning_once
    (e0 : FormEvaluator) (descend bottom ascend : List (PhaseName × Features))
    (hex : e0.exercise = "squat")
    (hmin : e0.min_knee = none)
    (hd : descend ≠ []) (ha : ascend ≠ [])
    (hdph : ∀ p ∈ descend, p.1 = PhaseName.DESCENDING)
    (hbph : ∀ p ∈ bottom, p.1 = PhaseName.BOTTOM)
    (haph : ∀ p ∈ ascend, p.1 = PhaseName.ASCENDING)
    (hknee : ∀ p ∈ descend, ∃ v : ℚ,
        fLookup p.2 "knee_angle_avg" = some v ∧
        thIdx e0.th "bottom_knee_max" < v) :
    (evalRun e0 (descend ++ (bottom ++ ascend))).2.map hasDepthWarning
      = List.replicate (descend.length + bottom.length) false
          ++ true :: List.replicate (ascend.length - 1) false := by
  obtain ⟨hexD, hthD, _, houtD, _, hneD⟩ :=
    evalRun_descend_squat (thIdx e0.th "bottom_knee_max") descend e0 hex rfl
      hdph hknee (by rw [hmin]; intro m hm; exact absurd hm (by simp))
  obtain ⟨hprevD, m, hmD, hTm⟩ := hneD hd
  obtain ⟨hexB, hthB, hmB, houtB, hnilB, hneB⟩ :=
    evalRun_bottom_squat bottom (evalRun e0 descend).1 hexD hbph
  have hprevB : (evalRun (evalRun e0 descend).1 bottom).1.prev_phase
        = some PhaseName.DESCENDING ∨
      (evalRun (evalRun e0 descend).1 bottom).1.prev_phase
        = some PhaseName.BOTTOM := by
    by_cases hb0 : bottom = []
    · left
      rw [hnilB hb0]
      exact hprevD
    · right
      exact hneB hb0
  obtain ⟨a0, arest, rfl⟩ := List.exists_cons_of_ne_nil ha
  obtain ⟨pa, fa⟩ := a0
  have hpa : pa = PhaseName.ASCENDING := haph (pa, fa) (by simp)
  subst hpa
  set eB := (evalRun (evalRun e0 descend).1 bottom).1 with heB
  have hstepA : scorePhase eB PhaseName.ASCENDING fa
      = ({ eB with prev_phase := some PhaseName.ASCENDING },
         squatEval eB PhaseName.ASCENDING fa) := by
    rw [scorePhase_squat eB PhaseName.ASCENDING fa hexB,
        updateMinima_ascending_squat eB fa hexB]
  have hwarnA : hasDepthWarning (scorePhase eB PhaseName.ASCENDING fa).2
      = true := by
    rw [hstepA]
    refine squatEval_depth _ _ _ ⟨⟨rfl, hprevB⟩, ?_⟩
    have hmBm : eB.min_knee = some m := by rw [hmB, hmD]
    have hthBm : thIdx eB.th "bottom_knee_max"
        = thIdx e0.th "bottom_knee_max" := by rw [hthB]; exact hthD
    rw [hmBm, hthBm]
    simp only [depthViolated]
    exact decide_eq_true hTm
  have htail := evalRun_ascend_tail_squat arest
    (scorePhase eB PhaseName.ASCENDING fa).1
    (by rw [hstepA]; exact hexB) (by rw [hstepA])
    (fun p hp => haph p (by simp [hp]))
  have hrunA : evalRun eB ((PhaseName.ASCENDING, fa) :: arest)
      = ((evalRun (scorePhase eB PhaseName.ASCENDING fa).1 arest).1,
         (scorePhase eB PhaseName.ASCENDING fa).2
           :: (evalRun (scorePhase eB PhaseName.ASCENDING fa).1 arest).2) := rfl
  rw [evalRun_append, evalRun_append, hrunA]
  simp only [List.map_append, List.map, houtD, houtB, hwarnA, htail,
             List.length_cons, Nat.add_sub_cancel]
  rw [List.replicate_add, List.append_assoc]

/-- Witness for `squat_depth_warning_once`: a one-frame shallow descent
(knee 120 > bottom_knee_max 90) turning straight into ASCENDING warns
exactly on the turnaround frame. -/
theorem squat_depth_warning_once_witness :
    (evalRun
        (FormEvaluator.make "squat" [("sym_knee_max", 20), ("bottom_knee_max", 90)])
        ([(PhaseName.DESCENDING, [("knee_angle_avg", 120)])]
          ++ ([] ++ [(PhaseName.ASCENDING, [])]))).2.map hasDepthWarning
      = [false, true] := by
  have h := squat_depth_warning_once
    (FormEvaluator.make "squat" [("sym_knee_max", 20), ("bottom_knee_max", 90)])
    [(PhaseName.DESCENDING, [("knee_angle_avg", 120)])] []
    [(PhaseName.ASCENDING, [])] rfl rfl (by simp) (by simp)
    (by simp) (by simp) (by simp)
    (by
      intro p hp
      simp only [List.mem_singleton] at hp
      subst hp
      refine ⟨120, rfl, ?_⟩
      show (90 : ℚ) < 120
      norm_num)
  simpa using h

/-- A successful `compute_all` implies every required landmark was
present. -/
theorem compute_all_ok_required (g : Point → Point → Point → ℚ)
    (st : ExtractorState) (lm : Landmarks) (r : ExtractorState × Features)
    (hok : compute_all g st lm = .ok r) :
    ∀ k ∈ requiredLandmarks, (List.lookup k lm).isSome = true := by
  cases h1 : List.lookup "left_hip" lm with
  | none => simp [compute_all, lmGet, h1, Bind.bind, Except.bind] at hok
  | some p1 =>
  cases h2 : List.lookup "left_knee" lm with
  | none => simp [compute_all, lmGet, h1, h2, Bind.bind, Except.bind] at hok
  | some p2 =>
  cases h3 : List.lookup "left_ankle" lm with
  | none => simp [compute_all, lmGet, h1, h2, h3, Bind.bind, Except.bind] at hok
  | some p3 =>
  cases h4 : List.lookup "right_hip" lm with
  | none => simp [compute_all, lmGet, h1, h2, h3, h4, Bind.bind, Except.bind] at hok
  | some p4 =>
  cases h5 : List.lookup "right_knee" lm with
  | none => simp [compute_all, lmGet, h1, h2, h3, h4, h5, Bind.bind, Except.bind] at hok
  | some p5 =>
  cases h6 : List.lookup "right_ankle" lm with
  | none => simp [compute_all, lmGet, h1, h2, h3, h4, h5, h6, Bind.bind, Except.bind] at hok
  | some p6 =>
  cases h7 : List.lookup "left_shoulder" lm with
  | none => simp [compute_all, lmGet, h1, h2, h3, h4, h5, h6, h7, Bind.bind, Except.bind] at hok
  | some p7 =>
  cases h8 : List.lookup "right_shoulder" lm with
  | none => simp [compute_all, lmGet, h1, h2, h3, h4, h5, h6, h7, h8, Bind.bind, Except.bind] at hok
  | some p8 =>
  cases h9 : List.lookup "left_elbow" lm with
  | none => simp [compute_all, lmGet, h1, h2, h3, h4, h5, h6, h7, h8, h9, Bind.bind, Except.bind] at hok
  | some p9 =>
  cases h10 : List.lookup "left_wrist" lm with
  | none => simp [compute_all, lmGet, h1, h2, h3, h4, h5, h6, h7, h8, h9, h10, Bind.bind, Except.bind] at hok
  | some p10 =>
  cases h11 : List.lookup "right_elbow" lm with
  | none => simp [compute_all, lmGet, h1, h2, h3, h4, h5, h6, h7, h8, h9, h10, h11, Bind.bind, Except.bind] at hok
  | some p11 =>
  cases h12 : List.lookup "right_wrist" lm with
  | none => simp [compute_all, lmGet, h1, h2, h3, h4, h5, h6, h7, h8, h9, h10, h11, h12, Bind.bind, Except.bind] at hok
  | some p12 =>
      intro k hk
      simp only [requiredLandmarks, List.mem_cons, List.not_mem_nil,
        or_false] at hk
      rcases hk with rfl|rfl|rfl|rfl|rfl|rfl|rfl|rfl|rfl|rfl|rfl|rfl <;>
        simp [h1, h2, h3, h4, h5, h6, h7, h8, h9, h10, h11, h12]

/-- **C1 (amended).** The loop's per-frame error handling: a no-detection
frame is skipped for that frame only and the loop continues; but when a
detected frame's landmark mapping makes `compute_all` raise (and a mapping
lacking any required joint always does), the error propagates out of the
loop — feature computation is not "skipped for that frame only", and the
loop does not continue with the next frame. -/
theorem missing_landmark_policy (g : Point → Point → Point → ℚ) :
    (∀ (st : ExtractorState) (idx : ℕ) (rest : List (Option Landmarks)),
        runFrames g st idx (none :: rest) = runFrames g st idx rest) ∧
    (∀ (st : ExtractorState) (idx : ℕ) (lm : Landmarks)
        (rest : List (Option Landmarks)) (k : String),
        compute_all g st lm = .error k →
        runFrames g st idx (some lm :: rest) = .error k) ∧
    (∀ (st : ExtractorState) (lm : Landmarks),
        (∃ k ∈ requiredLandmarks, List.lookup k lm = none) →
        ∃ k2, compute_all g st lm = .error k2) := by
  refine ⟨fun st idx rest => rfl, ?_, ?_⟩
  · intro st idx lm rest k hk
    show (match compute_all g st lm with
          | .error k => Except.error k
          | .ok (st1, _) => runFrames g st1 (idx + 1) rest) = Except.error k
    rw [hk]
  · intro st lm hmiss
    cases h : compute_all g st lm with
    | error k2 => exact ⟨k2, rfl⟩
    | ok r =>
        obtain ⟨k, hkmem, hknone⟩ := hmiss
        have hsome := compute_all_ok_required g st lm r h k hkmem
        rw [hknone] at hsome
        simp at hsome

/-- Witness for `missing_landmark_policy`: a no-detection frame followed by
a frame missing `left_hip` skips the first and aborts on the second. -/
theorem missing_landmark_policy_witness :
    runFrames (fun _ _ _ => 0) ExtractorState.init 0
        [none, some lmMissingLeftHip] = Except.error "left_hip" := by
  have h1 := (missing_landmark_policy (fun _ _ _ => 0)).1
    ExtractorState.init 0 [some lmMissingLeftHip]
  have h2 := (missing_landmark_policy (fun _ _ _ => 0)).2.1
    ExtractorState.init 0 lmMissingLeftHip [] "left_hip" rfl
  rw [h1, h2]

/-- **C1 (counterexample).** A session whose first detected frame lacks
`left_hip` (a required joint) does not skip that frame and continue with
the next frame: the whole run aborts with the KeyError, and the complete
frame behind it is never processed. -/
theorem missing_landmark_crashes :
    runFrames (fun _ _ _ => 0) ExtractorState.init 0
        [some lmMissingLeftHip, some lmComplete] = Except.error "left_hip" ∧
    ∀ r : ExtractorState × ℕ,
      runFrames (fun _ _ _ => 0) ExtractorState.init 0
        [some lmMissingLeftHip, some lmComplete] ≠ Except.ok r := by
  have h : runFrames (fun _ _ _ => 0) ExtractorState.init 0
      [some lmMissingLeftHip, some lmComplete] = Except.error "left_hip" := rfl
  refine ⟨h, fun r hr => ?_⟩
  rw [h] at hr
  exact Except.noConfusion hr

/-- Witness for `fsm_fallback_to_ascending` on concrete thresholds and
features for all three variants. -/
theorem fsm_fallback_to_ascending_witness :
    ((⟨PhaseName.DESCENDING, (), squatTransitions ⟨160, 90, 160, 1⟩⟩ :
        FiniteStateMachine Features Unit).update
      [("knee_angle_avg", 120), ("knee_vel_avg", 5)]).current = PhaseName.ASCENDING ∧
    ((⟨PhaseName.DESCENDING, (), pushupTransitions ⟨160, 90, 150, 1⟩⟩ :
        FiniteStateMachine Features Unit).update
      [("elbow_angle_avg", 120), ("elbow_vel_avg", 5)]).current = PhaseName.ASCENDING ∧
    ((⟨PhaseName.DESCENDING, (), lungeTransitions ⟨160, 100, 120, 160, 1⟩⟩ :
        FiniteStateMachine Features Unit).update
      [("front_knee_angle", 130), ("back_knee_angle", 140),
       ("front_knee_vel", 4)]).current = PhaseName.ASCENDING :=
  ⟨fsm_fallback_to_ascending.1 ⟨160, 90, 160, 1⟩ _ 120 5 (by norm_num) rfl rfl
      (by norm_num) (by norm_num),
   fsm_fallback_to_ascending.2.1 ⟨160, 90, 150, 1⟩ _ 120 5 (by norm_num) rfl rfl
      (by norm_num) (by norm_num),
   fsm_fallback_to_ascending.2.2 ⟨160, 100, 120, 160, 1⟩ _ 130 140 4 (by norm_num)
      rfl rfl rfl (by norm_num) (Or.inl (by norm_num))⟩

end PosePhase
